import Mathlib

/-!
# Verification of the FilesByDate engine (`logic.py`)

Shallow embedding of `FileManagementLogic` from `src/logic.py`:
date resolution (EXIF probing with `datetime.strptime`-style parsing,
modification-time fallback), bucket planning with collision avoidance,
batched copy/move with per-file error recovery, and single-level undo
with empty-folder cleanup.

The filesystem is modelled as finite association lists of files and
directories over component-list paths; Python's `os`/`shutil` primitives
become total Lean functions returning `Except String` where the original
can raise.  Values that the Python runtime produces non-deterministically
(`datetime.now()`, injected per-file exceptions such as permission
failures) are threaded as explicit parameters.
-/

set_option maxRecDepth 4000

/-! ## Date and time values -/

/-- A `datetime.datetime` value (we never need sub-second precision). -/
structure DateTime where
  year : Nat
  month : Nat
  day : Nat
  hour : Nat
  minute : Nat
  second : Nat
deriving DecidableEq, Repr

/-! ## `datetime.strptime`

CPython's `_strptime` compiles a format string to a regular expression:
`%Y ↦ \d\d\d\d`, `%m ↦ 1[0-2]|0[1-9]|[1-9]`, `%d ↦ 3[01]|[12]\d|0[1-9]|[1-9]`,
`%H ↦ 2[0-3]|[0-1]\d|\d`, `%M ↦ [0-5]\d|\d`, `%S ↦ 6[0-1]|[0-5]\d|\d`,
literal characters match themselves and a whitespace run in the format
matches one or more whitespace characters.  In the three formats used by
`logic.py` every numeric field is delimited by non-digit characters
(`-`, `/`, ` `, `:`) or the end of the string, so greedy matching with
backtracking is equivalent to: take the maximal digit run and require the
field to consume it entirely.  The match must cover the whole string, and
`datetime(...)` construction then validates the day against the month
length and the ranges `1 ≤ year ≤ 9999`, `second ≤ 59`. -/

/-- One token of a compiled `strptime` format. -/
inductive FTok where
  | fY | fm | fd | fH | fM | fS
  | lit (c : Char)
  | ws
deriving DecidableEq, Repr

/-- Digit value of a character (callers guarantee `c.isDigit`). -/
def digVal (c : Char) : Nat := c.toNat - 48

/-- Interpret the maximal digit run consumed by one numeric field,
following the CPython regular expression for that field (see above). -/
def matchRun : FTok → List Char → Option Nat
  | .fY, [a, b, c, d] =>
    if a.isDigit && b.isDigit && c.isDigit && d.isDigit then
      some (digVal a * 1000 + digVal b * 100 + digVal c * 10 + digVal d)
    else none
  | .fm, [a] => if a.isDigit && digVal a ≥ 1 then some (digVal a) else none
  | .fm, [a, b] =>
    if a.isDigit && b.isDigit then
      let v := digVal a * 10 + digVal b
      if 1 ≤ v && v ≤ 12 then some v else none
    else none
  | .fd, [a] => if a.isDigit && digVal a ≥ 1 then some (digVal a) else none
  | .fd, [a, b] =>
    if a.isDigit && b.isDigit then
      let v := digVal a * 10 + digVal b
      if 1 ≤ v && v ≤ 31 then some v else none
    else none
  | .fH, [a] => if a.isDigit then some (digVal a) else none
  | .fH, [a, b] =>
    if a.isDigit && b.isDigit then
      let v := digVal a * 10 + digVal b
      if v ≤ 23 then some v else none
    else none
  | .fM, [a] => if a.isDigit then some (digVal a) else none
  | .fM, [a, b] =>
    if a.isDigit && b.isDigit then
      let v := digVal a * 10 + digVal b
      if v ≤ 59 then some v else none
    else none
  | .fS, [a] => if a.isDigit then some (digVal a) else none
  | .fS, [a, b] =>
    if a.isDigit && b.isDigit then
      let v := digVal a * 10 + digVal b
      if v ≤ 61 then some v else none
    else none
  | _, _ => none

/-- Partial result of a format match (defaults are `strptime`'s
1900-01-01 00:00:00 base value). -/
structure DTParts where
  y : Nat := 1900
  m : Nat := 1
  d : Nat := 1
  H : Nat := 0
  M : Nat := 0
  S : Nat := 0
deriving DecidableEq, Repr

/-- Store a matched numeric field. -/
def setField : FTok → Nat → DTParts → DTParts
  | .fY, v, p => { p with y := v }
  | .fm, v, p => { p with m := v }
  | .fd, v, p => { p with d := v }
  | .fH, v, p => { p with H := v }
  | .fM, v, p => { p with M := v }
  | .fS, v, p => { p with S := v }
  | _, _, p => p

/-- Run a compiled format against a character list; the whole string must
be consumed (Python rejects trailing unconverted data). -/
def runFmt : List FTok → List Char → DTParts → Option DTParts
  | [], s, acc => if s.isEmpty then some acc else none
  | .lit c :: rest, s, acc =>
    match s with
    | [] => none
    | c' :: s' => if c' = c then runFmt rest s' acc else none
  | .ws :: rest, s, acc =>
    let run := s.takeWhile Char.isWhitespace
    if run.isEmpty then none
    else runFmt rest (s.dropWhile Char.isWhitespace) acc
  | t :: rest, s, acc =>
    match matchRun t (s.takeWhile Char.isDigit) with
    | some v => runFmt rest (s.dropWhile Char.isDigit) (setField t v acc)
    | none => none

/-- `"%Y-%m-%d %H:%M:%S"` compiled. -/
def fmtFull : List FTok :=
  [.fY, .lit '-', .fm, .lit '-', .fd, .ws, .fH, .lit ':', .fM, .lit ':', .fS]

/-- `"%Y-%m-%d"` compiled. -/
def fmtDash : List FTok := [.fY, .lit '-', .fm, .lit '-', .fd]

/-- `"%Y/%m/%d"` compiled. -/
def fmtSlash : List FTok := [.fY, .lit '/', .fm, .lit '/', .fd]

/-- `True` iff `y` is a Gregorian leap year (Python `calendar.isleap`). -/
def isLeapYear (y : Nat) : Bool :=
  y % 4 = 0 && (y % 100 ≠ 0 || y % 400 = 0)

/-- Number of days in a month, as validated by `datetime`'s constructor. -/
def daysInMonth (y m : Nat) : Nat :=
  if m = 2 then (if isLeapYear y then 29 else 28)
  else if m = 4 || m = 6 || m = 9 || m = 11 then 30
  else 31

/-- Range validation performed by the `datetime(...)` constructor after a
successful regular-expression match. -/
def validParts (p : DTParts) : Bool :=
  1 ≤ p.y && p.y ≤ 9999 && 1 ≤ p.d && p.d ≤ daysInMonth p.y p.m && p.S ≤ 59

/-- `datetime.strptime` on a character list, for one compiled format. -/
def strptimeCore (s : List Char) (toks : List FTok) : Option DateTime :=
  match runFmt toks s {} with
  | none => none
  | some p =>
    if validParts p then some ⟨p.y, p.m, p.d, p.H, p.M, p.S⟩ else none

/-- `datetime.strptime(date_str, fmt)` for the three format strings that
`logic.py` passes to it; other formats do not occur. -/
def strptime (date_str : String) (fmt : String) : Option DateTime :=
  if fmt = "%Y-%m-%d %H:%M:%S" then strptimeCore date_str.toList fmtFull
  else if fmt = "%Y-%m-%d" then strptimeCore date_str.toList fmtDash
  else if fmt = "%Y/%m/%d" then strptimeCore date_str.toList fmtSlash
  else none

/-! ## `strftime` for the formats `logic.py` uses -/

/-- Zero-padded two-digit rendering (`%d`, `%m`, `%H`, `%M`, `%S`). -/
def pad2 (n : Nat) : String :=
  if n < 10 then "0" ++ toString n else toString n

/-- Zero-padded four-digit rendering (`%Y`). -/
def pad4 (n : Nat) : String :=
  if n < 10 then "000" ++ toString n
  else if n < 100 then "00" ++ toString n
  else if n < 1000 then "0" ++ toString n
  else toString n

/-- `dt.strftime(fmt)` for the format strings occurring in `logic.py`. -/
def strftime (dt : DateTime) (fmt : String) : String :=
  if fmt = "%d-%m-%Y" then pad2 dt.day ++ "-" ++ pad2 dt.month ++ "-" ++ pad4 dt.year
  else if fmt = "%m-%d-%Y" then pad2 dt.month ++ "-" ++ pad2 dt.day ++ "-" ++ pad4 dt.year
  else if fmt = "%Y-%m-%d" then pad4 dt.year ++ "-" ++ pad2 dt.month ++ "-" ++ pad2 dt.day
  else if fmt = "%Y-%m-%d %H:%M:%S" then
    pad4 dt.year ++ "-" ++ pad2 dt.month ++ "-" ++ pad2 dt.day ++ " " ++
      pad2 dt.hour ++ ":" ++ pad2 dt.minute ++ ":" ++ pad2 dt.second
  else ""

/-! ## Python string helpers used by `logic.py` -/

/-- `str.replace(old, new, count)` for single-character `old`/`new`. -/
def replaceCharCount : List Char → Char → Char → Nat → List Char
  | [], _, _, _ => []
  | c :: cs, o, n, k =>
    if k = 0 then c :: cs
    else if c = o then n :: replaceCharCount cs o n (k - 1)
    else c :: replaceCharCount cs o n k

/-- Decimal digits of `n`, most significant first (rendering used by
Python f-string interpolation of an `int`). -/
def natChars (n : Nat) : List Char :=
  if h : n < 10 then [Char.ofNat (48 + n)]
  else natChars (n / 10) ++ [Char.ofNat (48 + n % 10)]
decreasing_by exact Nat.div_lt_self (Nat.lt_of_lt_of_le (by omega) (Nat.le_of_not_lt h)) (by omega)

/-- Decimal rendering of a natural number (`f"{counter}"`). -/
def natStr (n : Nat) : String := String.mk (natChars n)

/-- `str.lower()`, character by character (the extensions compared here
are ASCII). -/
def strToLower (s : String) : String := String.mk (s.data.map Char.toLower)

/-- `os.path.splitext` on a file name: split off the extension at the
last dot, unless every character before that dot is itself a dot. -/
def splitext (s : String) : String × String :=
  let cs := s.toList
  match (cs.reverse.takeWhile (· ≠ '.')), (cs.reverse.dropWhile (· ≠ '.')) with
  | _, [] => (s, "")
  | extRev, _ :: stemRev =>
    -- dot found; `stemRev` is the reversed stem, `extRev` the reversed extension
    if stemRev.reverse.all (· = '.') then (s, "")
    else (String.mk stemRev.reverse, String.mk ('.' :: extRev.reverse))

/-! ## Filesystem model

Paths are absolute component lists (`os.path.join(a, b)` is `a ++ [b]`,
`os.path.dirname` is `List.dropLast`).  A filesystem is a finite map
from paths to regular-file data plus a finite map from paths to
directory modification times, both as association lists looked up by
first match.  File contents are abstract (`Nat`); an image file's
decodable EXIF tag table rides along with the file data, `none` standing
for "`PIL` unavailable, undecodable bytes, or `_getexif()` returned
`None`". -/

abbrev FPath := List String

/-- First-match association-list lookup. -/
def alookup {κ α : Type} [DecidableEq κ] : List (κ × α) → κ → Option α
  | [], _ => none
  | (q, d) :: rest, p => if q = p then some d else alookup rest p

/-- Remove every binding of a key. -/
def removeKey {κ α : Type} [DecidableEq κ] : List (κ × α) → κ → List (κ × α)
  | [], _ => []
  | (q, d) :: rest, p => if q = p then removeKey rest p else (q, d) :: removeKey rest p

/-- Data stored for one regular file. -/
structure FileData where
  content : Nat
  mtime : DateTime
  exif : Option (List (Nat × String))
deriving DecidableEq, Repr

/-- A filesystem state. -/
structure FS where
  files : List (FPath × FileData)
  dirs : List (FPath × DateTime)
deriving DecidableEq, Repr

/-- Look up a regular file. -/
def FS.getFile (fs : FS) (p : FPath) : Option FileData := alookup fs.files p

/-- Look up a directory (its stored mtime). -/
def FS.getDir (fs : FS) (p : FPath) : Option DateTime := alookup fs.dirs p

/-- `os.path.isfile`. -/
def FS.isFile (fs : FS) (p : FPath) : Bool := (fs.getFile p).isSome

/-- `os.path.isdir`. -/
def FS.isDir (fs : FS) (p : FPath) : Bool := (fs.getDir p).isSome

/-- `os.path.exists`. -/
def os_path_exists (fs : FS) (p : FPath) : Bool := fs.isFile p || fs.isDir p

/-- If `q` is a direct child of `p`, its name. -/
def childName (p q : FPath) : Option String :=
  if q.dropLast = p then q.getLast? else none

/-- The entry names `os.listdir` returns for directory `p` (regular
files first, then subdirectories; `os.listdir` fixes no order). -/
def listChildren (fs : FS) (p : FPath) : List String :=
  fs.files.filterMap (fun e => childName p e.1) ++
    fs.dirs.filterMap (fun e => childName p e.1)

/-- `os.listdir`: raises unless `p` is a directory. -/
def os_listdir (fs : FS) (p : FPath) : Except String (List String) :=
  if fs.isDir p then .ok (listChildren fs p)
  else .error "FileNotFoundError: os.listdir"

/-- `os.stat(p).st_mtime` (directories also have one). -/
def os_stat_mtime (fs : FS) (p : FPath) : Except String DateTime :=
  match fs.getFile p with
  | some d => .ok d.mtime
  | none =>
    match fs.getDir p with
    | some t => .ok t
    | none => .error "FileNotFoundError: os.stat"

/-- All non-empty prefixes of a path, shortest first. -/
def pathPrefixes (p : FPath) : List FPath :=
  (List.range p.length).map (fun i => p.take (i + 1))

/-- `os.makedirs(p)`: create `p` and every missing ancestor; raises if
`p` already exists, or if some ancestor exists as a regular file. -/
def os_makedirs (fs : FS) (p : FPath) (now : DateTime) : Except String FS :=
  if os_path_exists fs p then .error "FileExistsError: os.makedirs"
  else if (pathPrefixes p).any (fun q => fs.isFile q) then
    .error "NotADirectoryError: os.makedirs"
  else
    .ok { fs with
          dirs := ((pathPrefixes p).filter (fun q => !fs.isDir q)).map (fun q => (q, now))
                    ++ fs.dirs }

/-- `os.remove`. -/
def os_remove (fs : FS) (p : FPath) : Except String FS :=
  if fs.isFile p then .ok { fs with files := removeKey fs.files p }
  else if fs.isDir p then .error "IsADirectoryError: os.remove"
  else .error "FileNotFoundError: os.remove"

/-- Last path component (`shutil`'s `_basename`; callers pass non-empty
paths). -/
def baseNameOf (p : FPath) : String := p.getLast?.getD ""

/-- `a` is a prefix of `b` (used for `shutil`'s move-into-itself check). -/
def isPref : FPath → FPath → Bool
  | [], _ => true
  | _ :: _, [] => false
  | a :: as, b :: bs => a == b && isPref as bs

/-- Rewrite `p` under a directory rename `src ↦ dst`. -/
def rebasePath (src dst p : FPath) : FPath :=
  if isPref src p then dst ++ p.drop src.length else p

/-- Rename directory `src` to `dst`, carrying the whole subtree. -/
def FS.rebase (fs : FS) (src dst : FPath) : FS :=
  { files := fs.files.map (fun e => (rebasePath src dst e.1, e.2)),
    dirs := fs.dirs.map (fun e => (rebasePath src dst e.1, e.2)) }

/-- `shutil.move(src, dst)`: if `dst` is an existing directory the real
destination is `dst/basename(src)` and an existing entry there is an
error; a regular file is renamed over an existing destination file
(POSIX `os.rename` semantics); a directory is renamed with its subtree,
refusing to move into itself; renaming requires the destination's parent
to be an existing directory. -/
def shutil_move (fs : FS) (src dst : FPath) : Except String FS :=
  let real_dst := if fs.isDir dst then dst ++ [baseNameOf src] else dst
  if fs.isDir dst && os_path_exists fs real_dst then
    .error "shutil.Error: destination path already exists"
  else if !fs.isDir real_dst.dropLast then
    .error "FileNotFoundError: os.rename"
  else
    match fs.getFile src with
    | some d =>
      .ok { fs with files := (real_dst, d) :: removeKey (removeKey fs.files src) real_dst }
    | none =>
      if fs.isDir src then
        if isPref src real_dst then
          .error "shutil.Error: cannot move a directory into itself"
        else if fs.isFile real_dst then .error "NotADirectoryError: os.rename"
        else .ok (fs.rebase src real_dst)
      else .error "FileNotFoundError: shutil.move"

/-- `shutil.copy(src, dst)`: copy file bytes; `dst` naming an existing
directory means copy into it; copying a directory raises
`IsADirectoryError`; an existing destination file is overwritten; the
destination's parent must be an existing directory. -/
def shutil_copy (fs : FS) (src dst : FPath) : Except String FS :=
  let real_dst := if fs.isDir dst then dst ++ [baseNameOf src] else dst
  match fs.getFile src with
  | some d =>
    if fs.isDir real_dst then .error "IsADirectoryError: shutil.copy"
    else if !fs.isDir real_dst.dropLast then .error "FileNotFoundError: open"
    else .ok { fs with files := (real_dst, d) :: removeKey fs.files real_dst }
  | none =>
    if fs.isDir src then .error "IsADirectoryError: shutil.copy"
    else .error "FileNotFoundError: shutil.copy"

/-- Render a path for an error or log message. -/
def pathToString (p : FPath) : String := String.intercalate "/" p

/-- A single quote character (Python wraps file names in these inside
its error messages). -/
def quoteChar : String := String.singleton (Char.ofNat 39)

/-! ## The engine: `FileManagementLogic`

Engine methods become functions over an explicit engine value and
filesystem state.  `datetime.now()` is the parameter `now`.  The batch
loops additionally take an exception oracle `inj : String → Option
String`: `inj file_name = some msg` means the `shutil.copy`/`shutil.move`
call for that file raises an otherwise unmodelled runtime exception
(permission error, disk full, …) with message `msg`; `fun _ => none`
is the run in which no such exception occurs.  The undo helpers take the
analogous oracle keyed by the destination path being undone. -/

/-- One element of an operation's `files` list (the Python dict
`{'file', 'from', 'to', 'date_folder', 'date_source'}`). -/
structure OpFileInfo where
  file : String
  fromPath : FPath
  toPath : FPath
  date_folder : String
  date_source : String
deriving DecidableEq, Repr

/-- The dict built by `_track_operation`. -/
structure Operation where
  type : String
  files : List OpFileInfo
  timestamp : DateTime
deriving DecidableEq, Repr

/-- The `FileManagementLogic` instance state. -/
structure FileManagementLogic where
  target_folder_path : FPath
  destination_folder_path : FPath
  format_type : String
  last_operation : Option Operation
  operation_history : List Operation
deriving DecidableEq, Repr

namespace FileManagementLogic

/-- `format_date` (logic.py:316-324). -/
def format_date (self : FileManagementLogic) : String :=
  if self.format_type = "DD-MM-YYYY" then "%d-%m-%Y"
  else if self.format_type = "MM-DD-YYYY" then "%m-%d-%Y"
  else if self.format_type = "YYYY-MM-DD" then "%Y-%m-%d"
  else "%Y-%m-%d"

/-- `get_target_files` (logic.py:179-180): bare `os.listdir`. -/
def get_target_files (self : FileManagementLogic) (fs : FS) : Except String (List String) :=
  os_listdir fs self.target_folder_path

end FileManagementLogic

/-- The recognized image extension set of `_get_exif_date`. -/
def image_extensions : List String :=
  [".jpg", ".jpeg", ".png", ".gif", ".bmp", ".tiff", ".tif"]

/-- The EXIF tag ids probed by `_get_exif_date`, in order:
`DateTimeOriginal`, `DateTime`, alternate `DateTime`, `DateTimeDigitized`. -/
def date_fields : List Nat := [36867, 36868, 306, 50971]

/-- The per-tag-value parse attempt inside `_get_exif_date`'s loop
(logic.py:275-295): a value containing a colon gets its first two colons
turned into hyphens and the next one into a space and must then parse as
`%Y-%m-%d %H:%M:%S`; a colon-free value is tried against the three
formats in order.  `none` means the loop continues with the next tag. -/
def parseExifString (date_str : String) : Option DateTime :=
  if date_str.toList.contains ':' then
    -- date_str.replace(':', '-', 2) then .replace(':', ' ', 1), then strptime
    strptime (String.mk (replaceCharCount (replaceCharCount date_str.toList ':' '-' 2) ':' ' ' 1))
      "%Y-%m-%d %H:%M:%S"
  else
    match strptime date_str "%Y-%m-%d %H:%M:%S" with
    | some dt => some dt
    | none =>
      match strptime date_str "%Y-%m-%d" with
      | some dt => some dt
      | none => strptime date_str "%Y/%m/%d"

/-- The tag loop of `_get_exif_date` (logic.py:269-295): probe the tag
ids in order; a missing tag, an empty value, or a failed parse moves on
to the next tag. -/
def probe_date_fields : List Nat → List (Nat × String) → Option DateTime
  | [], _ => none
  | f :: rest, exif_data =>
    match alookup exif_data f with
    | some date_str =>
      if date_str ≠ "" then
        match parseExifString date_str with
        | some dt => some dt
        | none => probe_date_fields rest exif_data
      else probe_date_fields rest exif_data
    | none => probe_date_fields rest exif_data

namespace FileManagementLogic

/-- `_get_exif_date` (logic.py:227-305).  Returns `none` for a
non-image extension, for a path with no regular file (`Image.open`
raises, swallowed by the outer `except`), and for undecodable or absent
metadata. -/
def _get_exif_date (fs : FS) (file_path : FPath) : Option DateTime :=
  let file_ext := strToLower (splitext (baseNameOf file_path)).2
  if !image_extensions.contains file_ext then none
  else
    match fs.getFile file_path with
    | none => none
    | some d =>
      match d.exif with
      | none => none
      | some exif_data => probe_date_fields date_fields exif_data

/-- Result dict of `get_file_date_info`. -/
structure DateInfo where
  date : String
  source : String
  original_date : DateTime
  datetime_original : String
deriving DecidableEq, Repr

/-- `get_file_date_info` (logic.py:182-207).  `os.stat` runs first and
its failure propagates to the caller. -/
def get_file_date_info (self : FileManagementLogic) (fs : FS) (file_name : String) :
    Except String DateInfo :=
  let file_path := self.target_folder_path ++ [file_name]
  match os_stat_mtime fs file_path with
  | .error e => .error e
  | .ok mtime =>
    match _get_exif_date fs file_path with
    | some photo_date =>
      .ok ⟨strftime photo_date self.format_date, "EXIF data", photo_date,
           strftime photo_date "%Y-%m-%d %H:%M:%S"⟩
    | none =>
      .ok ⟨strftime mtime self.format_date, "File modification time", mtime,
           strftime mtime "%Y-%m-%d %H:%M:%S"⟩

/-- `read_file_date_properties` (logic.py:209-225). -/
def read_file_date_properties (self : FileManagementLogic) (fs : FS) (file_name : String) :
    Except String String :=
  let file_path := self.target_folder_path ++ [file_name]
  match os_stat_mtime fs file_path with
  | .error e => .error e
  | .ok mtime =>
    match _get_exif_date fs file_path with
    | some photo_date => .ok (strftime photo_date self.format_date)
    | none => .ok (strftime mtime self.format_date)

/-- The per-file body of `create_folder_with_date` (logic.py:307-314),
iterated over the listing; any exception propagates out of `copy()`. -/
def create_folders_go (self : FileManagementLogic) (now : DateTime) :
    List String → FS → Except String FS
  | [], fs => .ok fs
  | file_name :: rest, fs =>
    match self.read_file_date_properties fs file_name with
    | .error e => .error e
    | .ok file_date =>
      if os_path_exists fs (self.destination_folder_path ++ [file_date]) then
        create_folders_go self now rest fs
      else
        match os_makedirs fs (self.destination_folder_path ++ [file_date]) now with
        | .error e => .error e
        | .ok fs' => create_folders_go self now rest fs'

/-- `create_folder_with_date` (logic.py:307-314). -/
def create_folder_with_date (self : FileManagementLogic) (fs : FS) (now : DateTime) :
    Except String FS :=
  match self.get_target_files fs with
  | .error e => .error e
  | .ok names => create_folders_go self now names fs

end FileManagementLogic

/-! ## Collision avoidance (the duplicate-filename `while` loop) -/

/-- The `k`-th candidate destination for `file_name` in `folder_path`:
the plain name for `k = 0`, `stem_k.ext` for `k ≥ 1`. -/
def dup_candidate (folder_path : FPath) (file_name : String) (k : Nat) : FPath :=
  if k = 0 then folder_path ++ [file_name]
  else folder_path ++ [(splitext file_name).1 ++ "_" ++ natStr k ++ (splitext file_name).2]

/-- The literal `while os.path.exists(destination_path)` loop
(logic.py:361-368 and 438-445), with explicit fuel.  The fuel never runs
out on the loop's reachable inputs (`collision_loop_fresh` below): a
filesystem with `N` entries cannot make `N + 1` distinct candidate
paths all exist. -/
def collision_loop (fs : FS) (folder_path : FPath) (file_name : String) :
    Nat → Nat → FPath → FPath
  | 0, _, destination_path => destination_path
  | fuel + 1, counter, destination_path =>
    if os_path_exists fs destination_path then
      collision_loop fs folder_path file_name fuel (counter + 1)
        (dup_candidate folder_path file_name counter)
    else destination_path

/-- Destination planning for one file: initial candidate
`folder_path/file_name`, then the collision loop. -/
def resolve_collision (fs : FS) (folder_path : FPath) (file_name : String) : FPath :=
  let destination_path := folder_path ++ [file_name]
  if os_path_exists fs destination_path then
    collision_loop fs folder_path file_name (fs.files.length + fs.dirs.length + 2) 1
      destination_path
  else destination_path

/-! ## The batch loops -/

/-- Outcome of one iteration of a batch loop's `try` body. -/
inductive FileStep where
  /-- the transfer succeeded and a manifest entry was appended -/
  | ok (entry : OpFileInfo)
  /-- the `if not os.path.exists(source_path)` branch: error recorded -/
  | srcMissing (msg : String)
  /-- an exception was raised and caught by the `except`: error recorded -/
  | exn (msg : String)
deriving DecidableEq, Repr

namespace FileManagementLogic

/-- The `try` body of `move_files_to_destination_folder`'s loop
(logic.py:335-387) for one file name. -/
def move_file_body (self : FileManagementLogic) (now : DateTime)
    (inj : String → Option String) (fs : FS) (file_name : String) : FS × FileStep :=
  match self.get_file_date_info fs file_name with
  | .error e => (fs, .exn e)
  | .ok info =>
    -- `folder_path = destination_folder_path ++ [info.date]`, inlined below
    match (if !os_path_exists fs (self.destination_folder_path ++ [info.date]) then
             os_makedirs fs (self.destination_folder_path ++ [info.date]) now
           else .ok fs) with
    | .error e => (fs, .exn e)
    | .ok fs1 =>
      if !os_path_exists fs1 (self.target_folder_path ++ [file_name]) then
        (fs1, .srcMissing ("Source file not found: " ++
          pathToString (self.target_folder_path ++ [file_name])))
      else
        match inj file_name with
        | some m => (fs1, .exn m)
        | none =>
          match shutil_move fs1 (self.target_folder_path ++ [file_name])
              (resolve_collision fs1 (self.destination_folder_path ++ [info.date]) file_name) with
          | .error e => (fs1, .exn e)
          | .ok fs2 =>
            (fs2, .ok { file := file_name,
                        fromPath := self.target_folder_path ++ [file_name],
                        toPath := resolve_collision fs1
                          (self.destination_folder_path ++ [info.date]) file_name,
                        date_folder := info.date,
                        date_source := info.source })

/-- The `try` body of `copy_files_to_destination_folder`'s loop
(logic.py:412-464) for one file name. -/
def copy_file_body (self : FileManagementLogic) (now : DateTime)
    (inj : String → Option String) (fs : FS) (file_name : String) : FS × FileStep :=
  match self.get_file_date_info fs file_name with
  | .error e => (fs, .exn e)
  | .ok info =>
    -- `folder_path = destination_folder_path ++ [info.date]`, inlined below
    match (if !os_path_exists fs (self.destination_folder_path ++ [info.date]) then
             os_makedirs fs (self.destination_folder_path ++ [info.date]) now
           else .ok fs) with
    | .error e => (fs, .exn e)
    | .ok fs1 =>
      if !os_path_exists fs1 (self.target_folder_path ++ [file_name]) then
        (fs1, .srcMissing ("Source file not found: " ++
          pathToString (self.target_folder_path ++ [file_name])))
      else
        match inj file_name with
        | some m => (fs1, .exn m)
        | none =>
          match shutil_copy fs1 (self.target_folder_path ++ [file_name])
              (resolve_collision fs1 (self.destination_folder_path ++ [info.date]) file_name) with
          | .error e => (fs1, .exn e)
          | .ok fs2 =>
            (fs2, .ok { file := file_name,
                        fromPath := self.target_folder_path ++ [file_name],
                        toPath := resolve_collision fs1
                          (self.destination_folder_path ++ [info.date]) file_name,
                        date_folder := info.date,
                        date_source := info.source })

end FileManagementLogic

/-- The batch `for` loop: one body outcome per listed name; an `ok`
outcome appends a manifest entry, the other two append to `errors` (the
`except` branch wraps the message the way the Python f-string does) and
`continue`. -/
def files_loop (body : FS → String → FS × FileStep) :
    List String → FS → List OpFileInfo → List String → FS × List OpFileInfo × List String
  | [], fs, entries, errors => (fs, entries, errors)
  | file_name :: rest, fs, entries, errors =>
    match body fs file_name with
    | (fs', .ok e) => files_loop body rest fs' (entries ++ [e]) errors
    | (fs', .srcMissing m) => files_loop body rest fs' entries (errors ++ [m])
    | (fs', .exn m) =>
      files_loop body rest fs' entries
        (errors ++ ["Error processing file " ++ quoteChar ++ file_name ++ quoteChar ++ ": " ++ m])

namespace FileManagementLogic

/-- `_track_operation` (logic.py:161-172): record the last operation,
append it to the history, and drop the oldest history entry when the
length exceeds 10. -/
def _track_operation (self : FileManagementLogic) (operation_type : String)
    (files_info : List OpFileInfo) (now : DateTime) : FileManagementLogic :=
  let op : Operation := ⟨operation_type, files_info, now⟩
  let history := self.operation_history ++ [op]
  { self with
    last_operation := some op,
    operation_history := if history.length > 10 then history.drop 1 else history }

/-- `move_files_to_destination_folder` (logic.py:326-401). -/
def move_files_to_destination_folder (self : FileManagementLogic) (fs : FS) (now : DateTime)
    (inj : String → Option String) :
    Except String (FileManagementLogic × FS × List OpFileInfo × List String) :=
  match self.get_target_files fs with
  | .error e => .error e
  | .ok names =>
    match files_loop (self.move_file_body now inj) names fs [] [] with
    | (fs', moved_files, errors) =>
      let self' :=
        if moved_files.isEmpty then self
        else self._track_operation "move" moved_files now
      .ok (self', fs', moved_files, errors)

/-- `copy_files_to_destination_folder` (logic.py:403-478). -/
def copy_files_to_destination_folder (self : FileManagementLogic) (fs : FS) (now : DateTime)
    (inj : String → Option String) :
    Except String (FileManagementLogic × FS × List OpFileInfo × List String) :=
  match self.get_target_files fs with
  | .error e => .error e
  | .ok names =>
    match files_loop (self.copy_file_body now inj) names fs [] [] with
    | (fs', copied_files, errors) =>
      let self' :=
        if copied_files.isEmpty then self
        else self._track_operation "copy" copied_files now
      .ok (self', fs', copied_files, errors)

/-- `move()` (logic.py:574-579) = `organize_files_by_date`
(logic.py:528-569): the preview pass only prints (its per-file `try`
swallows every error), then the move executor runs. -/
def move (self : FileManagementLogic) (fs : FS) (now : DateTime)
    (inj : String → Option String) :
    Except String (FileManagementLogic × FS × List OpFileInfo × List String) :=
  self.move_files_to_destination_folder fs now inj

/-- `copy()` (logic.py:581-587): `create_folder_with_date` runs outside
any exception handler, then the copy executor. -/
def copy (self : FileManagementLogic) (fs : FS) (now : DateTime)
    (inj : String → Option String) :
    Except String (FileManagementLogic × FS × List OpFileInfo × List String) :=
  match self.create_folder_with_date fs now with
  | .error e => .error e
  | .ok fs1 => self.copy_files_to_destination_folder fs1 now inj

end FileManagementLogic

/-! ## Undo -/

/-- Python `set.add` on the insertion-ordered model of
`folders_to_check`. -/
def insertIfAbsent (l : List FPath) (p : FPath) : List FPath :=
  if p ∈ l then l else l ++ [p]

namespace FileManagementLogic

/-- The `for` loop of `_undo_move_operation` (logic.py:51-67): move each
still-existing destination back to its recorded source, collecting
parent folders; a missing destination is only a warning.  An exception
(`.error`) carries the filesystem as already mutated. -/
def undo_move_loop (injU : FPath → Option String) :
    List OpFileInfo → FS → List FPath → Except (String × FS) (FS × List FPath)
  | [], fs, folders_to_check => .ok (fs, folders_to_check)
  | file_info :: rest, fs, folders_to_check =>
    if os_path_exists fs file_info.toPath then
      match injU file_info.toPath with
      | some m => .error (m, fs)
      | none =>
        match shutil_move fs file_info.toPath file_info.fromPath with
        | .error e => .error (e, fs)
        | .ok fs' =>
          undo_move_loop injU rest fs'
            (insertIfAbsent folders_to_check file_info.toPath.dropLast)
    else undo_move_loop injU rest fs folders_to_check

/-- The `for` loop of `_undo_copy_operation` (logic.py:89-107): delete
each still-existing copied destination, collecting parent folders. -/
def undo_copy_loop (injU : FPath → Option String) :
    List OpFileInfo → FS → List FPath → Except (String × FS) (FS × List FPath)
  | [], fs, folders_to_check => .ok (fs, folders_to_check)
  | file_info :: rest, fs, folders_to_check =>
    if os_path_exists fs file_info.toPath then
      match injU file_info.toPath with
      | some m => .error (m, fs)
      | none =>
        match os_remove fs file_info.toPath with
        | .error e => .error (e, fs)
        | .ok fs' =>
          undo_copy_loop injU rest fs'
            (insertIfAbsent folders_to_check file_info.toPath.dropLast)
    else undo_copy_loop injU rest fs folders_to_check

/-- `_remove_empty_folders` (logic.py:123-159): delete each candidate
folder iff it still exists, is a directory, and `os.listdir` finds it
empty; every failure inside is swallowed (warning only). -/
def _remove_empty_folders (fs : FS) : List FPath → FS
  | [] => fs
  | folder_path :: rest =>
    _remove_empty_folders
      (if os_path_exists fs folder_path && fs.isDir folder_path then
        (if (listChildren fs folder_path).isEmpty then
          { fs with dirs := removeKey fs.dirs folder_path }
        else fs)
      else fs) rest

/-- `_undo_move_operation` (logic.py:45-81): on success clear
`last_operation` and return `True`; a caught exception returns `False`
with the engine state untouched. -/
def _undo_move_operation (self : FileManagementLogic) (fs : FS)
    (injU : FPath → Option String) (files_info : List OpFileInfo) :
    Bool × FileManagementLogic × FS :=
  match undo_move_loop injU files_info fs [] with
  | .error (_, fs') => (false, self, fs')
  | .ok (fs', folders_to_check) =>
    (true, { self with last_operation := none }, _remove_empty_folders fs' folders_to_check)

/-- `_undo_copy_operation` (logic.py:83-121). -/
def _undo_copy_operation (self : FileManagementLogic) (fs : FS)
    (injU : FPath → Option String) (files_info : List OpFileInfo) :
    Bool × FileManagementLogic × FS :=
  match undo_copy_loop injU files_info fs [] with
  | .error (_, fs') => (false, self, fs')
  | .ok (fs', folders_to_check) =>
    (true, { self with last_operation := none }, _remove_empty_folders fs' folders_to_check)

/-- `undo_last_action` (logic.py:16-43): `False` with no state change
when there is nothing to undo or the recorded kind is unknown; otherwise
dispatch on the kind. -/
def undo_last_action (self : FileManagementLogic) (fs : FS)
    (injU : FPath → Option String) : Bool × FileManagementLogic × FS :=
  match self.last_operation with
  | none => (false, self, fs)
  | some op =>
    if op.type = "move" then self._undo_move_operation fs injU op.files
    else if op.type = "copy" then self._undo_copy_operation fs injU op.files
    else (false, self, fs)

end FileManagementLogic

/-- Value of a digit string, used only to invert `natChars`. -/
def decimalVal (cs : List Char) : Nat := cs.foldl (fun a c => 10 * a + digVal c) 0

/-- The entries list after one loop iteration: an `ok` outcome appends
its manifest entry. -/
def stepEntries (entries : List OpFileInfo) : FileStep → List OpFileInfo
  | .ok e => entries ++ [e]
  | _ => entries

/-- The manifest invariant maintained by the copy loop. -/
structure CopyInv (eng : FileManagementLogic) (fs : FS) (entries : List OpFileInfo) : Prop where
  dests_exist : ∀ e ∈ entries, fs.isFile e.toPath = true
  dests_nodup : (entries.map OpFileInfo.toPath).Nodup
  dests_shape : ∀ e ∈ entries, ∃ s n, e.toPath = eng.destination_folder_path ++ [s, n]
  buckets_dir : ∀ e ∈ entries, fs.isDir e.toPath.dropLast = true
  from_shape : ∀ e ∈ entries, e.fromPath = eng.target_folder_path ++ [e.file]

/-- The manifest invariant maintained by the move loop (a destination
may be a moved subdirectory, so existence rather than regular-file
status is tracked). -/
structure MoveInv (eng : FileManagementLogic) (fs : FS) (entries : List OpFileInfo) : Prop where
  dests_exist : ∀ e ∈ entries, os_path_exists fs e.toPath = true
  dests_nodup : (entries.map OpFileInfo.toPath).Nodup
  dests_shape : ∀ e ∈ entries, ∃ s n, e.toPath = eng.destination_folder_path ++ [s, n]

/-- The per-value parsing pipeline exactly as claim C2 words it: always
convert the first two colons to hyphens and the next colon to a space,
parse the converted string as `%Y-%m-%d %H:%M:%S`, and if that fails
retry the same tag value against `%Y-%m-%d` and then `%Y/%m/%d`. -/
def claimC2_parse_value (date_str : String) : Option DateTime :=
  match strptime (String.mk (replaceCharCount (replaceCharCount date_str.toList ':' '-' 2)
      ':' ' ' 1)) "%Y-%m-%d %H:%M:%S" with
  | some dt => some dt
  | none =>
    match strptime date_str "%Y-%m-%d" with
    | some dt => some dt
    | none => strptime date_str "%Y/%m/%d"

/-- Date resolution over decoded metadata as claim C2 words it: probe
the tags in the fixed priority order and let the first successful parse
of a present, non-empty value win. -/
def claimC2_resolve (exif_data : List (Nat × String)) : Option DateTime :=
  date_fields.findSome? (fun field_id =>
    match alookup exif_data field_id with
    | some date_str => if date_str ≠ "" then claimC2_parse_value date_str else none
    | none => none)

/-! ## Concrete states used by counterexamples and witnesses -/

/-- A fixed "now" timestamp for concrete runs. -/
def exT0 : DateTime := ⟨2024, 1, 1, 0, 0, 0⟩

/-- The oracle of the run in which no unexpected exception occurs. -/
def injNone : String → Option String := fun _ => none

/-- The undo-side oracle of the exception-free run. -/
def injUNone : FPath → Option String := fun _ => none

/-- An engine over source `/src`, destination `/dst`, format `YYYY-MM-DD`. -/
def engSrcDst : FileManagementLogic := ⟨["src"], ["dst"], "YYYY-MM-DD", none, []⟩

/-- A source directory containing only the subdirectory `sub`
(modified 2023-05-05). -/
def fsWithSubdir : FS :=
  ⟨[], [(["src"], exT0), (["dst"], exT0), (["src", "sub"], ⟨2023, 5, 5, 10, 0, 0⟩)]⟩

/-- A plain text file modified 2024-03-10. -/
def exDocData : FileData := ⟨100, ⟨2024, 3, 10, 8, 0, 0⟩, none⟩

/-- A JPEG with decodable metadata carrying `DateTimeOriginal = 2023-01-15`. -/
def exJpgData : FileData := ⟨200, ⟨2024, 3, 11, 8, 0, 0⟩, some [(36867, "2023-01-15")]⟩

/-- A source directory with a text file and a photo. -/
def fsTwoFiles : FS :=
  ⟨[(["src", "doc.txt"], exDocData), (["src", "photo.jpg"], exJpgData)],
   [(["src"], exT0), (["dst"], exT0)]⟩

/-- An engine whose destination root path is occupied by a regular file. -/
def engBlockedDest : FileManagementLogic := ⟨["src"], ["dstfile"], "YYYY-MM-DD", none, []⟩

/-- A listable source plus a regular file squatting on the destination root. -/
def fsBlockedDest : FS :=
  ⟨[(["src", "a.txt"], exDocData), (["dstfile"], exDocData)], [(["src"], exT0)]⟩

/-- The copy run used by several witnesses. -/
def c3run : Except String (FileManagementLogic × FS × List OpFileInfo × List String) :=
  FileManagementLogic.copy engSrcDst fsTwoFiles exT0 injNone

/-- Engine component of a batch result (fallback engine on error). -/
def runEngine (r : Except String (FileManagementLogic × FS × List OpFileInfo × List String)) :
    FileManagementLogic :=
  match r with
  | .ok x => x.1
  | .error _ => ⟨[], [], "", none, []⟩

/-- Filesystem component of a batch result. -/
def runFS (r : Except String (FileManagementLogic × FS × List OpFileInfo × List String)) : FS :=
  match r with
  | .ok x => x.2.1
  | .error _ => ⟨[], []⟩

/-- Entries component of a batch result. -/
def runEntries (r : Except String (FileManagementLogic × FS × List OpFileInfo × List String)) :
    List OpFileInfo :=
  match r with
  | .ok x => x.2.2.1
  | .error _ => []

/-- Errors component of a batch result. -/
def runErrors (r : Except String (FileManagementLogic × FS × List OpFileInfo × List String)) :
    List String :=
  match r with
  | .ok x => x.2.2.2
  | .error _ => []

/-- The move run over the subdirectory-only source. -/
def moveSubRun : Except String (FileManagementLogic × FS × List OpFileInfo × List String) :=
  FileManagementLogic.move engSrcDst fsWithSubdir exT0 injNone

/-- A direct copy-executor run over the two-file source. -/
def c7run : Except String (FileManagementLogic × FS × List OpFileInfo × List String) :=
  FileManagementLogic.copy_files_to_destination_folder engSrcDst fsTwoFiles exT0 injNone

/-- An oracle injecting a permission failure on `doc.txt` only. -/
def injFailDoc : String → Option String :=
  fun n => if n = "doc.txt" then some "PermissionError" else none

/-- The copy-executor run in which `doc.txt`'s transfer raises. -/
def c6run : Except String (FileManagementLogic × FS × List OpFileInfo × List String) :=
  FileManagementLogic.copy_files_to_destination_folder engSrcDst fsTwoFiles exT0 injFailDoc

/-- A recorded move-manifest entry whose destination still exists. -/
def entMoveBack : OpFileInfo :=
  ⟨"doc.txt", ["src", "doc.txt"], ["dst", "2024-03-10", "doc.txt"], "2024-03-10",
   "File modification time"⟩

/-- A state where the moved file sits in its bucket while a different
file has since appeared at the original source path. -/
def fsOccupied : FS :=
  ⟨[(["dst", "2024-03-10", "doc.txt"], exDocData), (["src", "doc.txt"], exJpgData)],
   [(["src"], exT0), (["dst"], exT0), (["dst", "2024-03-10"], exT0)]⟩

/-! ## Lemmas: association lists -/

theorem alookup_removeKey_self {κ α : Type} [DecidableEq κ] (l : List (κ × α)) (p : κ) :
    alookup (removeKey l p) p = none := by
  induction l with
  | nil => rfl
  | cons e rest ih =>
    obtain ⟨q, d⟩ := e
    by_cases h : q = p <;> simp [removeKey, alookup, h, ih]

theorem alookup_removeKey_ne {κ α : Type} [DecidableEq κ] (l : List (κ × α)) (p q : κ)
    (h : q ≠ p) : alookup (removeKey l p) q = alookup l q := by
  induction l with
  | nil => rfl
  | cons e rest ih =>
    obtain ⟨q', d⟩ := e
    by_cases h1 : q' = p
    · have h2 : q' ≠ q := fun hq => h (hq.symm.trans h1)
      simp [removeKey, alookup, h1, h2, ih, Ne.symm h]
    · by_cases h2 : q' = q <;> simp [removeKey, alookup, h1, h2, ih, h]

theorem alookup_mem_keys {κ α : Type} [DecidableEq κ] (l : List (κ × α)) (p : κ)
    (h : (alookup l p).isSome = true) : p ∈ l.map Prod.fst := by
  induction l with
  | nil => simp [alookup] at h
  | cons e rest ih =>
    obtain ⟨q, d⟩ := e
    by_cases h1 : q = p
    · simp [h1]
    · simp only [alookup, h1, if_false] at h
      simp [ih h]

theorem alookup_append {κ α : Type} [DecidableEq κ] (l1 l2 : List (κ × α)) (p : κ) :
    alookup (l1 ++ l2) p = ((alookup l1 p).rec (alookup l2 p) (fun d => some d)) := by
  induction l1 with
  | nil => rfl
  | cons e rest ih =>
    obtain ⟨q, d⟩ := e
    by_cases h : q = p <;> simp [alookup, h, ih]

/-! ## Lemmas: decimal rendering is injective -/

theorem decimalVal_append_digit (cs : List Char) (c : Char) :
    decimalVal (cs ++ [c]) = 10 * decimalVal cs + digVal c := by
  simp [decimalVal, List.foldl_append]

theorem digVal_ofNat (n : Nat) (h : n < 10) : digVal (Char.ofNat (48 + n)) = n := by
  interval_cases n <;> rfl

theorem decimalVal_natChars (n : Nat) : decimalVal (natChars n) = n := by
  induction n using Nat.strong_induction_on with
  | _ n ih =>
    rw [natChars]
    by_cases h : n < 10
    · simp only [h, dif_pos]
      show decimalVal ([] ++ [Char.ofNat (48 + n)]) = n
      rw [decimalVal_append_digit, digVal_ofNat n h]
      simp [decimalVal]
    · simp only [h, dif_neg, not_false_iff]
      rw [decimalVal_append_digit, digVal_ofNat _ (Nat.mod_lt _ (by omega)),
        ih (n / 10) (Nat.div_lt_self (by omega) (by omega))]
      omega

theorem natChars_injective : Function.Injective natChars := by
  intro m n h
  have := congrArg decimalVal h
  rwa [decimalVal_natChars, decimalVal_natChars] at this

theorem natStr_injective : Function.Injective natStr := by
  intro m n h
  exact natChars_injective (congrArg String.data h)

theorem dup_candidate_inj (fp : FPath) (nm : String) (j k : Nat)
    (hj : 1 ≤ j) (hk : 1 ≤ k) (h : dup_candidate fp nm j = dup_candidate fp nm k) : j = k := by
  simp only [dup_candidate, if_neg (by omega : ¬ j = 0), if_neg (by omega : ¬ k = 0)] at h
  have h1 := List.append_cancel_left h
  have h2 : (splitext nm).1 ++ "_" ++ natStr j ++ (splitext nm).2
      = (splitext nm).1 ++ "_" ++ natStr k ++ (splitext nm).2 := by
    simpa using h1
  have h3 : ((splitext nm).1 ++ "_").data ++ (natStr j).data ++ (splitext nm).2.data
      = ((splitext nm).1 ++ "_").data ++ (natStr k).data ++ (splitext nm).2.data := by
    have := congrArg String.data h2
    simpa [String.data_append, List.append_assoc] using this
  have h4 : (natStr j).data = (natStr k).data :=
    List.append_cancel_left (List.append_cancel_right h3)
  exact natChars_injective h4

/-! ## Lemmas: the collision loop returns the first unused candidate -/

theorem exists_fresh_candidate (fs : FS) (fp : FPath) (nm : String) :
    ∃ j, 1 ≤ j ∧ j < fs.files.length + fs.dirs.length + 2 ∧
      os_path_exists fs (dup_candidate fp nm j) = false := by
  by_contra hall
  push_neg at hall
  set N := fs.files.length + fs.dirs.length with hN
  have hex : ∀ j, 1 ≤ j → j < N + 2 → os_path_exists fs (dup_candidate fp nm j) = true := by
    intro j h1 h2
    have := hall j h1 h2
    revert this
    cases os_path_exists fs (dup_candidate fp nm j) <;> simp
  have hmem : ∀ j, 1 ≤ j → j < N + 2 →
      dup_candidate fp nm j ∈ fs.files.map Prod.fst ++ fs.dirs.map Prod.fst := by
    intro j h1 h2
    have h3 := hex j h1 h2
    simp only [os_path_exists, Bool.or_eq_true] at h3
    rcases h3 with h3 | h3
    · exact List.mem_append_left _ (alookup_mem_keys _ _ h3)
    · exact List.mem_append_right _ (alookup_mem_keys _ _ h3)
  have hnodup : ((List.range (N + 1)).map (fun i => dup_candidate fp nm (i + 1))).Nodup := by
    refine List.Nodup.map ?_ (List.nodup_range _)
    intro a b hab
    have := dup_candidate_inj fp nm (a + 1) (b + 1) (by omega) (by omega) hab
    omega
  have hsub : (List.range (N + 1)).map (fun i => dup_candidate fp nm (i + 1)) ⊆
      fs.files.map Prod.fst ++ fs.dirs.map Prod.fst := by
    intro p hp
    simp only [List.mem_map, List.mem_range] at hp
    obtain ⟨i, hi, rfl⟩ := hp
    exact hmem (i + 1) (by omega) (by omega)
  have hlen := (List.subperm_of_subset hnodup hsub).length_le
  simp only [List.length_map, List.length_range, List.length_append] at hlen
  omega

theorem collision_loop_spec (fs : FS) (fp : FPath) (nm : String) :
    ∀ fuel c, 1 ≤ c →
      (∃ j, c - 1 ≤ j ∧ j < c - 1 + fuel ∧
        os_path_exists fs (dup_candidate fp nm j) = false) →
      ∃ k, c - 1 ≤ k ∧
        collision_loop fs fp nm fuel c (dup_candidate fp nm (c - 1)) = dup_candidate fp nm k ∧
        os_path_exists fs (dup_candidate fp nm k) = false ∧
        ∀ j, c - 1 ≤ j → j < k → os_path_exists fs (dup_candidate fp nm j) = true := by
  intro fuel
  induction fuel with
  | zero => intro c _ hw; obtain ⟨j, h1, h2, _⟩ := hw; omega
  | succ fuel ih =>
    intro c hc hw
    by_cases hd : os_path_exists fs (dup_candidate fp nm (c - 1)) = true
    · have hrec : collision_loop fs fp nm (fuel + 1) c (dup_candidate fp nm (c - 1)) =
          collision_loop fs fp nm fuel (c + 1) (dup_candidate fp nm c) := by
        simp [collision_loop, hd]
      have hw' : ∃ j, (c + 1) - 1 ≤ j ∧ j < (c + 1) - 1 + fuel ∧
          os_path_exists fs (dup_candidate fp nm j) = false := by
        obtain ⟨j, h1, h2, h3⟩ := hw
        refine ⟨j, ?_, by omega, h3⟩
        rcases Nat.lt_or_ge (c - 1) j with h | h
        · omega
        · exfalso
          have : j = c - 1 := by omega
          rw [this, hd] at h3
          simp at h3
      obtain ⟨k, hk1, hk2, hk3, hk4⟩ := ih (c + 1) (by omega) hw'
      have hcc : (c + 1) - 1 - 1 = c - 1 := by omega
      refine ⟨k, by omega, ?_, hk3, ?_⟩
      · rw [hrec]
        have : (c + 1) - 1 = c := by omega
        rw [this] at hk2
        exact hk2
      · intro j hj1 hj2
        by_cases hje : j = c - 1
        · rw [hje]; exact hd
        · exact hk4 j (by omega) hj2
    · have hd' : os_path_exists fs (dup_candidate fp nm (c - 1)) = false := by
        revert hd; cases os_path_exists fs (dup_candidate fp nm (c - 1)) <;> simp
      refine ⟨c - 1, le_refl _, ?_, hd', by omega⟩
      simp [collision_loop, hd']

theorem resolve_collision_spec (fs : FS) (fp : FPath) (nm : String) :
    ∃ k, resolve_collision fs fp nm = dup_candidate fp nm k ∧
      os_path_exists fs (dup_candidate fp nm k) = false ∧
      ∀ j, j < k → os_path_exists fs (dup_candidate fp nm j) = true := by
  unfold resolve_collision
  by_cases h0 : os_path_exists fs (fp ++ [nm]) = true
  · simp only [h0, if_true]
    have hw : ∃ j, 1 - 1 ≤ j ∧ j < 1 - 1 + (fs.files.length + fs.dirs.length + 2) ∧
        os_path_exists fs (dup_candidate fp nm j) = false := by
      obtain ⟨j, h1, h2, h3⟩ := exists_fresh_candidate fs fp nm
      exact ⟨j, by omega, by omega, h3⟩
    obtain ⟨k, hk1, hk2, hk3, hk4⟩ := collision_loop_spec fs fp nm
      (fs.files.length + fs.dirs.length + 2) 1 (le_refl _) hw
    have hcand0 : dup_candidate fp nm (1 - 1) = fp ++ [nm] := by simp [dup_candidate]
    rw [hcand0] at hk2
    exact ⟨k, hk2, hk3, fun j hj => hk4 j (by omega) hj⟩
  · have h0' : os_path_exists fs (fp ++ [nm]) = false := by
      revert h0; cases os_path_exists fs (fp ++ [nm]) <;> simp
    refine ⟨0, ?_, ?_, by omega⟩ <;> simp [h0', dup_candidate]

theorem resolve_collision_fresh (fs : FS) (fp : FPath) (nm : String) :
    os_path_exists fs (resolve_collision fs fp nm) = false := by
  obtain ⟨k, h1, h2, _⟩ := resolve_collision_spec fs fp nm
  rw [h1]; exact h2

theorem resolve_collision_shape (fs : FS) (fp : FPath) (nm : String) :
    ∃ s, resolve_collision fs fp nm = fp ++ [s] := by
  obtain ⟨k, h1, _, _⟩ := resolve_collision_spec fs fp nm
  rw [h1]
  unfold dup_candidate
  by_cases h : k = 0 <;> simp [h]

/-! ## Lemmas: filesystem primitive operations -/

theorem alookup_isSome_of_mem {κ α : Type} [DecidableEq κ] {l : List (κ × α)} {p : κ} {d : α}
    (h : (p, d) ∈ l) : (alookup l p).isSome = true := by
  induction l with
  | nil => simp at h
  | cons e rest ih =>
    obtain ⟨q, d'⟩ := e
    by_cases h1 : q = p
    · simp [alookup, h1]
    · rcases List.mem_cons.mp h with h2 | h2
      · exact absurd (congrArg Prod.fst h2).symm h1
      · simpa [alookup, h1] using ih h2

theorem alookup_append_isSome_right {κ α : Type} [DecidableEq κ] (l1 l2 : List (κ × α)) (p : κ)
    (h : (alookup l2 p).isSome = true) : (alookup (l1 ++ l2) p).isSome = true := by
  induction l1 with
  | nil => simpa using h
  | cons e rest ih =>
    obtain ⟨q, d⟩ := e
    by_cases h1 : q = p <;> simp [alookup, h1, ih]

theorem alookup_update {κ α : Type} [DecidableEq κ] (l : List (κ × α)) (p q : κ) (d : α) :
    alookup ((p, d) :: removeKey l p) q = if q = p then some d else alookup l q := by
  by_cases h : q = p
  · simp [alookup, h]
  · have h2 : ¬ p = q := fun hh => h hh.symm
    simp only [alookup, if_neg h2, if_neg h]
    exact alookup_removeKey_ne l p q h

theorem exists_false_parts {fs : FS} {p : FPath} (h : os_path_exists fs p = false) :
    fs.isFile p = false ∧ fs.isDir p = false := by
  simpa [os_path_exists] using h

theorem os_makedirs_ok_parts {fs fs' : FS} {p : FPath} {now : DateTime}
    (h : os_makedirs fs p now = .ok fs') :
    fs'.files = fs.files ∧
      fs'.dirs = ((pathPrefixes p).filter (fun q => !fs.isDir q)).map (fun q => (q, now))
        ++ fs.dirs := by
  unfold os_makedirs at h
  split at h
  · exact absurd h (by simp)
  · split at h
    · exact absurd h (by simp)
    · cases h; exact ⟨rfl, rfl⟩

theorem os_makedirs_ok_isDir {fs fs' : FS} {p q : FPath} {now : DateTime}
    (h : os_makedirs fs p now = .ok fs') (hq : fs.isDir q = true) : fs'.isDir q = true := by
  obtain ⟨-, hd⟩ := os_makedirs_ok_parts h
  simp only [FS.isDir, FS.getDir] at hq ⊢
  rw [hd]
  exact alookup_append_isSome_right _ _ _ hq

theorem os_makedirs_ok_isDir_self {fs fs' : FS} {p : FPath} {now : DateTime}
    (h : os_makedirs fs p now = .ok fs') (hp : 0 < p.length) : fs'.isDir p = true := by
  obtain ⟨-, hd⟩ := os_makedirs_ok_parts h
  by_cases hdd : fs.isDir p = true
  · exact os_makedirs_ok_isDir h hdd
  · have hmem : (p, now) ∈ ((pathPrefixes p).filter (fun q => !fs.isDir q)).map
        (fun q => (q, now)) := by
      refine List.mem_map_of_mem _ (List.mem_filter.mpr ⟨?_, by simp [hdd]⟩)
      refine List.mem_map.mpr ⟨p.length - 1, by simp [List.mem_range]; omega, ?_⟩
      have hlen : p.length - 1 + 1 = p.length := by omega
      rw [hlen, List.take_length]
    simp only [FS.isDir, FS.getDir]
    rw [hd]
    exact alookup_isSome_of_mem (List.mem_append_left fs.dirs hmem)

/-- Success form of `shutil_copy` onto a fresh destination. -/
theorem shutil_copy_fresh_ok {fs fs' : FS} {src dst : FPath}
    (hfresh : os_path_exists fs dst = false) (h : shutil_copy fs src dst = .ok fs') :
    ∃ d, fs.getFile src = some d ∧ fs.isDir dst.dropLast = true ∧
      fs' = { fs with files := (dst, d) :: removeKey fs.files dst } := by
  obtain ⟨hf, hd⟩ := exists_false_parts hfresh
  unfold shutil_copy at h
  rw [hd] at h
  simp only [Bool.false_eq_true, if_false] at h
  cases hsrc : fs.getFile src with
  | none =>
    rw [hsrc] at h
    split at h
    all_goals try (split at h)
    all_goals simp_all
  | some d =>
    rw [hsrc, hd] at h
    simp only [Bool.false_eq_true, if_false] at h
    split at h
    next hpar => exact absurd h (by simp)
    next hpar =>
      cases h
      refine ⟨d, rfl, ?_, rfl⟩
      revert hpar
      cases fs.isDir dst.dropLast <;> simp

/-! ## Lemmas: the copy batch establishes the manifest invariants -/

theorem dropLast_append_two (l : List String) (a b : String) :
    (l ++ [a, b]).dropLast = l ++ [a] := by
  have h : l ++ [a, b] = (l ++ [a]) ++ [b] := by simp
  rw [h]
  exact List.dropLast_concat ..

/-- Everything one iteration of the copy loop can do: either no entry is
produced and the file table is untouched, or exactly one fresh
bucket-file position is written and described exhaustively. -/
theorem copy_body_spec (eng : FileManagementLogic) (now : DateTime)
    (inj : String → Option String) (fs : FS) (n : String) (fs' : FS) (st : FileStep)
    (h : eng.copy_file_body now inj fs n = (fs', st)) :
    ((∀ e, st ≠ .ok e) ∧ fs'.files = fs.files ∧
      (∀ q, fs.isDir q = true → fs'.isDir q = true))
    ∨ (∃ entry fs1 d,
        st = .ok entry ∧
        entry.file = n ∧ entry.fromPath = eng.target_folder_path ++ [n] ∧
        (∃ s, entry.toPath = eng.destination_folder_path ++ [entry.date_folder, s]) ∧
        fs1.files = fs.files ∧ (∀ q, fs.isDir q = true → fs1.isDir q = true) ∧
        os_path_exists fs1 entry.toPath = false ∧
        fs1.getFile entry.fromPath = some d ∧
        fs1.isDir entry.toPath.dropLast = true ∧
        fs' = { fs1 with files := (entry.toPath, d) :: removeKey fs1.files entry.toPath }) := by
  unfold FileManagementLogic.copy_file_body at h
  cases hinfo : eng.get_file_date_info fs n with
  | error e =>
    rw [hinfo] at h
    cases h
    exact Or.inl ⟨by simp, rfl, fun q hq => hq⟩
  | ok info =>
    rw [hinfo] at h
    try simp only [] at h
    cases hmk : (if !os_path_exists fs (eng.destination_folder_path ++ [info.date]) then
        os_makedirs fs (eng.destination_folder_path ++ [info.date]) now else .ok fs) with
    | error e =>
      rw [hmk] at h
      cases h
      exact Or.inl ⟨by simp, rfl, fun q hq => hq⟩
    | ok fs1 =>
      rw [hmk] at h
      try simp only [] at h
      have hfs1 : fs1.files = fs.files ∧ (∀ q, fs.isDir q = true → fs1.isDir q = true) := by
        cases hex : os_path_exists fs (eng.destination_folder_path ++ [info.date]) with
        | false =>
          rw [hex] at hmk
          rw [if_pos (by simp)] at hmk
          exact ⟨(os_makedirs_ok_parts hmk).1, fun q hq => os_makedirs_ok_isDir hmk hq⟩
        | true =>
          rw [hex] at hmk
          rw [if_neg (by simp)] at hmk
          cases hmk
          exact ⟨rfl, fun q hq => hq⟩
      cases hsrc : os_path_exists fs1 (eng.target_folder_path ++ [n]) with
      | false =>
        rw [hsrc] at h
        rw [if_pos (by simp)] at h
        cases h
        exact Or.inl ⟨by simp, hfs1.1, hfs1.2⟩
      | true =>
        rw [hsrc] at h
        rw [if_neg (by simp)] at h
        cases hinj : inj n with
        | some m =>
          rw [hinj] at h
          cases h
          exact Or.inl ⟨by simp, hfs1.1, hfs1.2⟩
        | none =>
          rw [hinj] at h
          cases hcp : shutil_copy fs1 (eng.target_folder_path ++ [n])
              (resolve_collision fs1 (eng.destination_folder_path ++ [info.date]) n) with
          | error e =>
            rw [hcp] at h
            cases h
            exact Or.inl ⟨by simp, hfs1.1, hfs1.2⟩
          | ok fs2 =>
            rw [hcp] at h
            cases h
            have hfresh := resolve_collision_fresh fs1
              (eng.destination_folder_path ++ [info.date]) n
            obtain ⟨d, hsome, hpardir, rfl⟩ := shutil_copy_fresh_ok hfresh hcp
            obtain ⟨s, hshape⟩ := resolve_collision_shape fs1
              (eng.destination_folder_path ++ [info.date]) n
            refine Or.inr ⟨_, fs1, d, rfl, rfl, rfl, ⟨s, by simpa using hshape⟩,
              hfs1.1, hfs1.2, hfresh, hsome, hpardir, rfl⟩

theorem copy_body_preserves_inv {eng : FileManagementLogic} {now : DateTime}
    {inj : String → Option String} {fs : FS} {n : String} {fs' : FS} {st : FileStep}
    {entries : List OpFileInfo}
    (h : eng.copy_file_body now inj fs n = (fs', st)) (hinv : CopyInv eng fs entries) :
    CopyInv eng fs' (stepEntries entries st) ∧
    (∀ q, (¬ ∃ s m, q = eng.destination_folder_path ++ [s, m]) →
      fs'.getFile q = fs.getFile q) := by
  rcases copy_body_spec eng now inj fs n fs' st h with
    ⟨hno, hfiles, hdirs⟩ | ⟨entry, fs1, d, hst, hfile, hfrom, ⟨s, hshape⟩, hfiles1, hdirs1,
      hfresh, hsome, hpardir, hfs'⟩
  · have hsteq : stepEntries entries st = entries := by
      cases st with
      | ok e => exact absurd rfl (hno e)
      | srcMissing m => rfl
      | exn m => rfl
    rw [hsteq]
    constructor
    · refine ⟨fun e he => ?_, hinv.dests_nodup, hinv.dests_shape,
        fun e he => hdirs _ (hinv.buckets_dir e he), hinv.from_shape⟩
      have h1 := hinv.dests_exist e he
      simpa [FS.isFile, FS.getFile, hfiles] using h1
    · intro q _
      simp [FS.getFile, hfiles]
  · subst hst
    have hget : ∀ q, fs'.getFile q = if q = entry.toPath then some d else fs.getFile q := by
      intro q
      rw [hfs']
      show alookup ((entry.toPath, d) :: removeKey fs1.files entry.toPath) q = _
      rw [alookup_update]
      by_cases hq : q = entry.toPath
      · simp [hq]
      · simp only [if_neg hq]
        show alookup fs1.files q = FS.getFile fs q
        rw [hfiles1]
        rfl
    have hdirs' : ∀ q, fs'.isDir q = fs1.isDir q := by
      intro q
      rw [hfs']
      rfl
    have hne : ∀ e ∈ entries, e.toPath ≠ entry.toPath := by
      intro e he heq
      have h1 := hinv.dests_exist e he
      have h2 := (exists_false_parts hfresh).1
      have h3 : fs1.isFile e.toPath = true := by
        simpa [FS.isFile, FS.getFile, hfiles1] using h1
      rw [heq, h2] at h3
      simp at h3
    have hstep : stepEntries entries (.ok entry) = entries ++ [entry] := rfl
    rw [hstep]
    constructor
    · refine ⟨fun e he => ?_, ?_, fun e he => ?_, fun e he => ?_, fun e he => ?_⟩
      · rcases List.mem_append.mp he with he | he
        · have h1 := hinv.dests_exist e he
          simp only [FS.isFile] at h1 ⊢
          rw [hget, if_neg (hne e he)]
          exact h1
        · have heq : e = entry := by simpa using he
          subst heq
          simp only [FS.isFile]
          rw [hget, if_pos rfl]
          rfl
      · rw [List.map_append, List.nodup_append]
        refine ⟨hinv.dests_nodup, by simp, ?_⟩
        intro p hp hq
        simp only [List.map_cons, List.map_nil, List.mem_singleton] at hq
        simp only [List.mem_map] at hp
        obtain ⟨e, he, rfl⟩ := hp
        exact hne e he hq
      · rcases List.mem_append.mp he with he | he
        · exact hinv.dests_shape e he
        · have heq : e = entry := by simpa using he
          subst heq
          exact ⟨e.date_folder, s, hshape⟩
      · rcases List.mem_append.mp he with he | he
        · rw [hdirs']
          exact hdirs1 _ (hinv.buckets_dir e he)
        · have heq : e = entry := by simpa using he
          subst heq
          rw [hdirs']
          exact hpardir
      · rcases List.mem_append.mp he with he | he
        · exact hinv.from_shape e he
        · have heq : e = entry := by simpa using he
          subst heq
          rw [hfrom, hfile]
    · intro q hq
      have hqne : q ≠ entry.toPath := fun hqe =>
        hq ⟨entry.date_folder, s, hqe ▸ hshape⟩
      rw [hget, if_neg hqne]

theorem os_listdir_ok_isDir {fs : FS} {p : FPath} {names : List String}
    (h : os_listdir fs p = .ok names) : fs.isDir p = true ∧ names = listChildren fs p := by
  unfold os_listdir at h
  split at h
  · cases h; exact ⟨by assumption, rfl⟩
  · exact absurd h (by simp)

theorem os_listdir_error_iff (fs : FS) (p : FPath) :
    (∃ e, os_listdir fs p = .error e) ↔ fs.isDir p = false := by
  unfold os_listdir
  by_cases h : fs.isDir p = true
  · simp [h]
  · have h' : fs.isDir p = false := by revert h; cases fs.isDir p <;> simp
    simp [h']

/-- Every listed name contributes exactly one entry or one error. -/
theorem files_loop_counts (body : FS → String → FS × FileStep) :
    ∀ names fs entries errors,
      (files_loop body names fs entries errors).2.1.length
          + (files_loop body names fs entries errors).2.2.length
        = entries.length + errors.length + names.length := by
  intro names
  induction names with
  | nil => intro fs entries errors; simp [files_loop]
  | cons n rest ih =>
    intro fs entries errors
    cases hb : body fs n with
    | mk fs' st =>
      cases st with
      | ok e =>
        have hred : files_loop body (n :: rest) fs entries errors
            = files_loop body rest fs' (entries ++ [e]) errors := by
          simp only [files_loop]; rw [hb]
        rw [hred, ih]
        simp
        omega
      | srcMissing m =>
        have hred : files_loop body (n :: rest) fs entries errors
            = files_loop body rest fs' entries (errors ++ [m]) := by
          simp only [files_loop]; rw [hb]
        rw [hred, ih]
        simp
        omega
      | exn m =>
        have hred : files_loop body (n :: rest) fs entries errors
            = files_loop body rest fs' entries
                (errors ++ ["Error processing file " ++ quoteChar ++ n ++ quoteChar ++ ": " ++ m]) := by
          simp only [files_loop]; rw [hb]
        rw [hred, ih]
        simp
        omega

theorem copy_loop_inv (eng : FileManagementLogic) (now : DateTime)
    (inj : String → Option String) :
    ∀ names fs entries errors, CopyInv eng fs entries →
      CopyInv eng (files_loop (eng.copy_file_body now inj) names fs entries errors).1
        (files_loop (eng.copy_file_body now inj) names fs entries errors).2.1 ∧
      (∀ q, (¬ ∃ s m, q = eng.destination_folder_path ++ [s, m]) →
        (files_loop (eng.copy_file_body now inj) names fs entries errors).1.getFile q
          = fs.getFile q) := by
  intro names
  induction names with
  | nil => intro fs entries errors hinv; exact ⟨hinv, fun q _ => rfl⟩
  | cons n rest ih =>
    intro fs entries errors hinv
    cases hb : eng.copy_file_body now inj fs n with
    | mk fs' st =>
      obtain ⟨hinv', hframe⟩ := copy_body_preserves_inv hb hinv
      cases st with
      | ok e =>
        have hred : files_loop (eng.copy_file_body now inj) (n :: rest) fs entries errors
            = files_loop (eng.copy_file_body now inj) rest fs' (entries ++ [e]) errors := by
          simp only [files_loop]; rw [hb]
        rw [hred]
        obtain ⟨h1, h2⟩ := ih fs' (entries ++ [e]) errors hinv'
        exact ⟨h1, fun q hq => (h2 q hq).trans (hframe q hq)⟩
      | srcMissing m =>
        have hred : files_loop (eng.copy_file_body now inj) (n :: rest) fs entries errors
            = files_loop (eng.copy_file_body now inj) rest fs' entries (errors ++ [m]) := by
          simp only [files_loop]; rw [hb]
        rw [hred]
        obtain ⟨h1, h2⟩ := ih fs' entries (errors ++ [m]) hinv'
        exact ⟨h1, fun q hq => (h2 q hq).trans (hframe q hq)⟩
      | exn m =>
        have hred : files_loop (eng.copy_file_body now inj) (n :: rest) fs entries errors
            = files_loop (eng.copy_file_body now inj) rest fs' entries
                (errors ++ ["Error processing file " ++ quoteChar ++ n ++ quoteChar ++ ": " ++ m]) := by
          simp only [files_loop]; rw [hb]
        rw [hred]
        obtain ⟨h1, h2⟩ := ih fs' entries _ hinv'
        exact ⟨h1, fun q hq => (h2 q hq).trans (hframe q hq)⟩

theorem create_folders_go_ok (eng : FileManagementLogic) (now : DateTime) :
    ∀ names fs fs', FileManagementLogic.create_folders_go eng now names fs = .ok fs' →
      fs'.files = fs.files ∧ (∀ q, fs.isDir q = true → fs'.isDir q = true) := by
  intro names
  induction names with
  | nil =>
    intro fs fs' h
    cases h
    exact ⟨rfl, fun q hq => hq⟩
  | cons n rest ih =>
    intro fs fs' h
    unfold FileManagementLogic.create_folders_go at h
    cases hrd : eng.read_file_date_properties fs n with
    | error e => rw [hrd] at h; exact absurd h (by simp)
    | ok file_date =>
      rw [hrd] at h
      try simp only [] at h
      by_cases hex : os_path_exists fs (eng.destination_folder_path ++ [file_date]) = true
      · rw [if_pos hex] at h
        exact ih fs fs' h
      · rw [if_neg hex] at h
        cases hmk : os_makedirs fs (eng.destination_folder_path ++ [file_date]) now with
        | error e => rw [hmk] at h; exact absurd h (by simp)
        | ok fs1 =>
          rw [hmk] at h
          obtain ⟨h1, h2⟩ := ih fs1 fs' h
          obtain ⟨h3, -⟩ := os_makedirs_ok_parts hmk
          exact ⟨h1.trans h3, fun q hq => h2 q (os_makedirs_ok_isDir hmk hq)⟩

theorem create_folder_with_date_ok {eng : FileManagementLogic} {fs fs' : FS} {now : DateTime}
    (h : eng.create_folder_with_date fs now = .ok fs') :
    fs'.files = fs.files ∧ (∀ q, fs.isDir q = true → fs'.isDir q = true) ∧
      fs.isDir eng.target_folder_path = true := by
  unfold FileManagementLogic.create_folder_with_date at h
  cases hls : eng.get_target_files fs with
  | error e => rw [hls] at h; exact absurd h (by simp)
  | ok names =>
    rw [hls] at h
    obtain ⟨h1, h2⟩ := create_folders_go_ok eng now names fs fs' h
    exact ⟨h1, h2, (os_listdir_ok_isDir hls).1⟩

/-- Unpacked success of `copy_files_to_destination_folder`: the manifest
invariants hold in the final state, non-bucket files are untouched, and
the returned engine is the tracked update exactly when entries exist. -/
theorem copy_files_run {eng : FileManagementLogic} {fs : FS} {now : DateTime}
    {inj : String → Option String} {eng' : FileManagementLogic} {fs' : FS}
    {entries : List OpFileInfo} {errors : List String}
    (h : eng.copy_files_to_destination_folder fs now inj = .ok (eng', fs', entries, errors)) :
    CopyInv eng fs' entries ∧
    (∀ q, (¬ ∃ s m, q = eng.destination_folder_path ++ [s, m]) →
      fs'.getFile q = fs.getFile q) ∧
    eng' = (if entries.isEmpty then eng else eng._track_operation "copy" entries now) ∧
    fs.isDir eng.target_folder_path = true := by
  unfold FileManagementLogic.copy_files_to_destination_folder at h
  cases hls : eng.get_target_files fs with
  | error e => rw [hls] at h; exact absurd h (by simp)
  | ok names =>
    rw [hls] at h
    try simp only [] at h
    cases hloop : files_loop (eng.copy_file_body now inj) names fs [] [] with
    | mk fs2 rest2 =>
      obtain ⟨copied, errs⟩ := rest2
      rw [hloop] at h
      cases h
      have hinv0 : CopyInv eng fs [] :=
        ⟨by simp, by simp, by simp, by simp, by simp⟩
      obtain ⟨h1, h2⟩ := copy_loop_inv eng now inj names fs [] [] hinv0
      rw [hloop] at h1 h2
      exact ⟨h1, h2, rfl, (os_listdir_ok_isDir hls).1⟩

/-! ## Lemmas: undo of a copy operation -/

theorem insertIfAbsent_mem (l : List FPath) (p q : FPath) :
    q ∈ insertIfAbsent l p ↔ q ∈ l ∨ q = p := by
  unfold insertIfAbsent
  by_cases h : p ∈ l
  · simp only [if_pos h]
    exact ⟨Or.inl, fun hq => hq.elim id (fun hqp => by rw [hqp]; exact h)⟩
  · simp [if_neg h]

theorem insertIfAbsent_nodup (l : List FPath) (p : FPath) (h : l.Nodup) :
    (insertIfAbsent l p).Nodup := by
  unfold insertIfAbsent
  by_cases hp : p ∈ l
  · simpa [if_pos hp] using h
  · rw [if_neg hp, List.nodup_append]
    refine ⟨h, by simp, ?_⟩
    simp only [List.disjoint_singleton]
    exact hp

theorem undo_copy_loop_ok :
    ∀ (l : List OpFileInfo) (fs : FS) (folders : List FPath),
      (∀ e ∈ l, fs.isFile e.toPath = true) →
      (l.map OpFileInfo.toPath).Nodup →
      ∃ fs' folders',
        FileManagementLogic.undo_copy_loop (fun _ => none) l fs folders = .ok (fs', folders') ∧
        fs'.dirs = fs.dirs ∧
        (∀ e ∈ l, fs'.getFile e.toPath = none) ∧
        (∀ q, q ∉ l.map OpFileInfo.toPath → fs'.getFile q = fs.getFile q) ∧
        (∀ fp, fp ∈ folders' ↔ fp ∈ folders ∨ ∃ e ∈ l, fp = e.toPath.dropLast) ∧
        (folders.Nodup → folders'.Nodup) := by
  intro l
  induction l with
  | nil =>
    intro fs folders _ _
    exact ⟨fs, folders, rfl, rfl, by simp, fun q _ => rfl, by simp, fun h => h⟩
  | cons e rest ih =>
    intro fs folders hex hnd
    have hf : fs.isFile e.toPath = true := hex e (by simp)
    have hexists : os_path_exists fs e.toPath = true := by
      simp [os_path_exists, hf]
    have hrem : os_remove fs e.toPath = .ok { fs with files := removeKey fs.files e.toPath } := by
      unfold os_remove
      rw [if_pos hf]
    have hred : FileManagementLogic.undo_copy_loop (fun _ => none) (e :: rest) fs folders
        = FileManagementLogic.undo_copy_loop (fun _ => none) rest
            { fs with files := removeKey fs.files e.toPath }
            (insertIfAbsent folders e.toPath.dropLast) := by
      simp only [FileManagementLogic.undo_copy_loop, hexists, hrem, if_true]
    have hnotin : e.toPath ∉ rest.map OpFileInfo.toPath := by
      have := hnd
      simp only [List.map_cons, List.nodup_cons] at this
      exact this.1
    have hex' : ∀ e' ∈ rest, ({ fs with files := removeKey fs.files e.toPath } : FS).isFile e'.toPath = true := by
      intro e' he'
      have hne : e'.toPath ≠ e.toPath := by
        intro hcontra
        exact hnotin (hcontra ▸ List.mem_map_of_mem OpFileInfo.toPath he')
      have h1 := hex e' (by simp [he'])
      simp only [FS.isFile, FS.getFile] at h1 ⊢
      rw [alookup_removeKey_ne _ _ _ hne]
      exact h1
    have hnd' : (rest.map OpFileInfo.toPath).Nodup := by
      have := hnd
      simp only [List.map_cons, List.nodup_cons] at this
      exact this.2
    obtain ⟨fs', folders', hloop, hdirs, hnone, hframe, hfolders, hfnodup⟩ :=
      ih { fs with files := removeKey fs.files e.toPath }
        (insertIfAbsent folders e.toPath.dropLast) hex' hnd'
    refine ⟨fs', folders', hred.trans hloop, hdirs, ?_, ?_, ?_, ?_⟩
    · intro e' he'
      rcases List.mem_cons.mp he' with he' | he'
      · subst he'
        rw [hframe e'.toPath hnotin]
        simp only [FS.getFile]
        exact alookup_removeKey_self ..
      · exact hnone e' he'
    · intro q hq
      have hq1 : q ∉ rest.map OpFileInfo.toPath := fun hc => hq (by simp [hc])
      have hq2 : q ≠ e.toPath := fun hc => hq (by simp [hc])
      rw [hframe q hq1]
      simp only [FS.getFile]
      exact alookup_removeKey_ne _ _ _ hq2
    · intro fp
      rw [hfolders fp, insertIfAbsent_mem]
      constructor
      · rintro ((h | h) | ⟨e', he', h⟩)
        · exact Or.inl h
        · exact Or.inr ⟨e, by simp, h⟩
        · exact Or.inr ⟨e', by simp [he'], h⟩
      · rintro (h | ⟨e', he', h⟩)
        · exact Or.inl (Or.inl h)
        · rcases List.mem_cons.mp he' with he' | he'
          · exact Or.inl (Or.inr (he' ▸ h))
          · exact Or.inr ⟨e', he', h⟩
    · intro hnodup
      exact hfnodup (insertIfAbsent_nodup _ _ hnodup)

/-! ## Lemmas: empty-folder cleanup -/

theorem filterMap_removeKey {κ α β : Type} [DecidableEq κ] (l : List (κ × α)) (k : κ)
    (f : κ × α → Option β) (h : ∀ d, f (k, d) = none) :
    (removeKey l k).filterMap f = l.filterMap f := by
  induction l with
  | nil => rfl
  | cons e rest ih =>
    obtain ⟨q, d⟩ := e
    by_cases h1 : q = k
    · subst h1
      simp [removeKey, List.filterMap_cons, h d, ih]
    · cases hf : f (q, d) <;> simp [removeKey, h1, List.filterMap_cons, hf, ih]

theorem listChildren_removeDir (fs : FS) (b q : FPath) (h : b.dropLast ≠ q) :
    listChildren { fs with dirs := removeKey fs.dirs b } q = listChildren fs q := by
  unfold listChildren
  have hcn : childName q b = none := by
    unfold childName
    rw [if_neg h]
  have := filterMap_removeKey fs.dirs b (fun e => childName q e.1) (fun d => hcn)
  rw [show ({ fs with dirs := removeKey fs.dirs b } : FS).dirs = removeKey fs.dirs b from rfl]
  rw [show ({ fs with dirs := removeKey fs.dirs b } : FS).files = fs.files from rfl]
  rw [this]

theorem isDir_removeDir_ne (fs : FS) (b q : FPath) (h : q ≠ b) :
    ({ fs with dirs := removeKey fs.dirs b } : FS).isDir q = fs.isDir q := by
  simp only [FS.isDir, FS.getDir]
  rw [alookup_removeKey_ne _ _ _ h]

theorem remove_empty_folders_files :
    ∀ (folders : List FPath) (fs : FS),
      (FileManagementLogic._remove_empty_folders fs folders).files = fs.files := by
  intro folders
  induction folders with
  | nil => intro fs; rfl
  | cons fp rest ih =>
    intro fs
    unfold FileManagementLogic._remove_empty_folders
    rw [ih]
    split
    · split <;> rfl
    · rfl

theorem remove_empty_folders_isDir_frame :
    ∀ (folders : List FPath) (fs : FS) (q : FPath), (∀ fp ∈ folders, q ≠ fp) →
      (FileManagementLogic._remove_empty_folders fs folders).isDir q = fs.isDir q := by
  intro folders
  induction folders with
  | nil => intro fs q _; rfl
  | cons fp rest ih =>
    intro fs q hq
    unfold FileManagementLogic._remove_empty_folders
    rw [ih _ _ (fun fp' hfp' => hq fp' (by simp [hfp']))]
    split
    · split
      · exact isDir_removeDir_ne fs fp q (hq fp (by simp))
      · rfl
    · rfl

theorem remove_empty_folders_children_frame :
    ∀ (folders : List FPath) (fs : FS) (q : FPath), (∀ fp ∈ folders, fp.dropLast ≠ q) →
      listChildren (FileManagementLogic._remove_empty_folders fs folders) q
        = listChildren fs q := by
  intro folders
  induction folders with
  | nil => intro fs q _; rfl
  | cons fp rest ih =>
    intro fs q hq
    unfold FileManagementLogic._remove_empty_folders
    rw [ih _ _ (fun fp' hfp' => hq fp' (by simp [hfp']))]
    split
    · split
      · exact listChildren_removeDir fs fp q (hq fp (by simp))
      · rfl
    · rfl

theorem remove_empty_folders_main :
    ∀ (folders : List FPath) (fs : FS),
      folders.Nodup →
      (∀ fp1 ∈ folders, ∀ fp2 ∈ folders, fp2.dropLast ≠ fp1) →
      ∀ fp ∈ folders,
        (FileManagementLogic._remove_empty_folders fs folders).isDir fp = true →
        (listChildren (FileManagementLogic._remove_empty_folders fs folders) fp).isEmpty
          = false := by
  intro folders
  induction folders with
  | nil => intro fs _ _ fp hfp; simp at hfp
  | cons fp0 rest ih =>
    intro fs hnd hpar fp hfp hdir
    have hnotin : fp0 ∉ rest := (List.nodup_cons.mp hnd).1
    rcases List.mem_cons.mp hfp with rfl | hfp'
    · -- the head folder itself
      have hframe : (FileManagementLogic._remove_empty_folders fs (fp :: rest)).isDir fp
          = (if os_path_exists fs fp && fs.isDir fp then
              (if (listChildren fs fp).isEmpty then
                ({ fs with dirs := removeKey fs.dirs fp } : FS)
              else fs)
            else fs).isDir fp := by
        show (FileManagementLogic._remove_empty_folders _ rest).isDir fp = _
        exact remove_empty_folders_isDir_frame rest _ fp
          (fun fp' hfp' => fun hc => hnotin (hc ▸ hfp'))
      rw [hframe] at hdir
      by_cases hA : (os_path_exists fs fp && fs.isDir fp) = true
      · by_cases hB : (listChildren fs fp).isEmpty = true
        · exfalso
          rw [if_pos hA, if_pos hB] at hdir
          simp only [FS.isDir, FS.getDir] at hdir
          rw [alookup_removeKey_self] at hdir
          simp at hdir
        · have hcf : listChildren (FileManagementLogic._remove_empty_folders fs (fp :: rest)) fp
              = listChildren fs fp := by
            show listChildren (FileManagementLogic._remove_empty_folders _ rest) fp = _
            rw [remove_empty_folders_children_frame rest _ fp
              (fun fp' hfp' => hpar fp (by simp) fp' (by simp [hfp']))]
            rw [if_pos hA, if_neg hB]
          rw [hcf]
          revert hB
          cases (listChildren fs fp).isEmpty <;> simp
      · have hdir2 : fs.isDir fp = true := by
          rw [if_neg hA] at hdir
          exact hdir
        exfalso
        apply hA
        have hex : os_path_exists fs fp = true := by
          simp [os_path_exists, hdir2]
        simp [hex, hdir2]
    · -- a folder handled later
      have hred : FileManagementLogic._remove_empty_folders fs (fp0 :: rest)
          = FileManagementLogic._remove_empty_folders
              (if os_path_exists fs fp0 && fs.isDir fp0 then
                (if (listChildren fs fp0).isEmpty then
                  ({ fs with dirs := removeKey fs.dirs fp0 } : FS)
                else fs)
              else fs) rest := rfl
      rw [hred] at hdir ⊢
      exact ih _ (List.nodup_cons.mp hnd).2
        (fun fp1 h1 fp2 h2 => hpar fp1 (by simp [h1]) fp2 (by simp [h2])) fp hfp' hdir

theorem undo_copy_operation_spec {eng : FileManagementLogic} {fs : FS}
    {entries : List OpFileInfo}
    (hex : ∀ e ∈ entries, fs.isFile e.toPath = true)
    (hnd : (entries.map OpFileInfo.toPath).Nodup)
    (hshape : ∀ e ∈ entries, ∃ s n, e.toPath = eng.destination_folder_path ++ [s, n]) :
    ∃ fs2, eng._undo_copy_operation fs (fun _ => none) entries
        = (true, { eng with last_operation := none }, fs2) ∧
      (∀ e ∈ entries, fs2.getFile e.toPath = none) ∧
      (∀ q, q ∉ entries.map OpFileInfo.toPath → fs2.getFile q = fs.getFile q) ∧
      (∀ e ∈ entries, fs2.isDir e.toPath.dropLast = true →
        (listChildren fs2 e.toPath.dropLast).isEmpty = false) := by
  obtain ⟨fs1, folders, hloop, hdirs1, hnone, hframe, hfolders, hfnodup⟩ :=
    undo_copy_loop_ok entries fs [] hex hnd
  have hfoldershape : ∀ fp ∈ folders, ∃ s, fp = eng.destination_folder_path ++ [s] := by
    intro fp hfp
    rcases (hfolders fp).mp hfp with h | ⟨e, he, rfl⟩
    · simp at h
    · obtain ⟨s, n, hsn⟩ := hshape e he
      exact ⟨s, by rw [hsn, dropLast_append_two]⟩
  have hpar : ∀ fp1 ∈ folders, ∀ fp2 ∈ folders, fp2.dropLast ≠ fp1 := by
    intro fp1 h1 fp2 h2 hc
    obtain ⟨s1, rfl⟩ := hfoldershape fp1 h1
    obtain ⟨s2, rfl⟩ := hfoldershape fp2 h2
    rw [List.dropLast_concat] at hc
    have := congrArg List.length hc
    simp at this
  have hndf : folders.Nodup := hfnodup (by simp)
  unfold FileManagementLogic._undo_copy_operation
  rw [hloop]
  refine ⟨FileManagementLogic._remove_empty_folders fs1 folders, rfl, ?_, ?_, ?_⟩
  · intro e he
    have h1 := hnone e he
    simp only [FS.getFile] at h1 ⊢
    rw [remove_empty_folders_files folders fs1]
    exact h1
  · intro q hq
    have h1 := hframe q hq
    simp only [FS.getFile] at h1 ⊢
    rw [remove_empty_folders_files folders fs1]
    exact h1
  · intro e he hdir
    have hfp : e.toPath.dropLast ∈ folders := (hfolders _).mpr (Or.inr ⟨e, he, rfl⟩)
    exact remove_empty_folders_main folders fs1 hndf hpar _ hfp hdir

/-! ## Lemmas: the move batch keeps destination paths unique -/

theorem alookup_isSome_mem {κ α : Type} [DecidableEq κ] {l : List (κ × α)} {p : κ}
    (h : (alookup l p).isSome = true) : ∃ d, (p, d) ∈ l := by
  induction l with
  | nil => simp [alookup] at h
  | cons e rest ih =>
    obtain ⟨q, d⟩ := e
    by_cases h1 : q = p
    · exact ⟨d, by simp [h1]⟩
    · simp only [alookup, h1, if_false] at h
      obtain ⟨d', hd'⟩ := ih h
      exact ⟨d', by simp [hd']⟩

theorem isPref_iff (a b : FPath) : isPref a b = true ↔ ∃ t, b = a ++ t := by
  induction a generalizing b with
  | nil => simp [isPref]
  | cons x xs ih =>
    cases b with
    | nil =>
      simp only [isPref]
      constructor
      · intro h; simp at h
      · rintro ⟨t, ht⟩; simp at ht
    | cons y ys =>
      simp only [isPref, Bool.and_eq_true, beq_iff_eq]
      rw [ih]
      constructor
      · rintro ⟨rfl, t, rfl⟩
        exact ⟨t, rfl⟩
      · rintro ⟨t, ht⟩
        simp only [List.cons_append, List.cons.injEq] at ht
        exact ⟨ht.1.symm, t, ht.2⟩

theorem isPref_append_right {a b : FPath} (l : FPath) (h : isPref a b = true) :
    isPref a (b ++ l) = true := by
  rw [isPref_iff] at h ⊢
  obtain ⟨t, rfl⟩ := h
  exact ⟨t ++ l, by simp⟩

theorem rebasePath_of_not_pref {src dst p : FPath} (h : isPref src p = false) :
    rebasePath src dst p = p := by
  unfold rebasePath
  rw [h]
  simp

/-- Success forms of `shutil.move` onto a fresh destination. -/
theorem shutil_move_fresh_ok {fs fs' : FS} {src dst : FPath}
    (hfresh : os_path_exists fs dst = false) (h : shutil_move fs src dst = .ok fs') :
    (∃ d, fs.getFile src = some d ∧
       fs' = { fs with files := (dst, d) :: removeKey (removeKey fs.files src) dst }) ∨
    (fs.getFile src = none ∧ fs.isDir src = true ∧ isPref src dst = false ∧
       fs' = fs.rebase src dst) := by
  obtain ⟨hf, hd⟩ := exists_false_parts hfresh
  unfold shutil_move at h
  rw [hd] at h
  simp only [Bool.false_eq_true, if_false, Bool.false_and] at h
  split at h
  · exact absurd h (by simp)
  · cases hsrc : fs.getFile src with
    | some d =>
      rw [hsrc] at h
      cases h
      exact Or.inl ⟨d, rfl, rfl⟩
    | none =>
      rw [hsrc] at h
      try simp only [] at h
      by_cases hdirsrc : fs.isDir src = true
      · rw [if_pos hdirsrc] at h
        by_cases hpr : isPref src dst = true
        · rw [if_pos hpr] at h
          exact absurd h (by simp)
        · have hpr' : isPref src dst = false := by
            revert hpr; cases isPref src dst <;> simp
          rw [if_neg hpr, hf] at h
          simp only [Bool.false_eq_true, if_false] at h
          cases h
          exact Or.inr ⟨rfl, hdirsrc, hpr', rfl⟩
      · rw [if_neg hdirsrc] at h
        exact absurd h (by simp)

theorem exB_rebase_of_not_pref {fs : FS} {src dst q : FPath}
    (hq : os_path_exists fs q = true) (hnp : isPref src q = false) :
    os_path_exists (fs.rebase src dst) q = true := by
  simp only [os_path_exists, Bool.or_eq_true, FS.isFile, FS.isDir, FS.getFile, FS.getDir]
    at hq ⊢
  rcases hq with hq | hq
  · obtain ⟨d, hmem⟩ := alookup_isSome_mem hq
    left
    have h1 := List.mem_map_of_mem (fun e : FPath × FileData => (rebasePath src dst e.1, e.2)) hmem
    rw [show (fun e : FPath × FileData => (rebasePath src dst e.1, e.2)) (q, d)
        = (rebasePath src dst q, d) from rfl] at h1
    rw [rebasePath_of_not_pref hnp] at h1
    exact alookup_isSome_of_mem h1
  · obtain ⟨t, hmem⟩ := alookup_isSome_mem hq
    right
    have h1 := List.mem_map_of_mem (fun e : FPath × DateTime => (rebasePath src dst e.1, e.2)) hmem
    rw [show (fun e : FPath × DateTime => (rebasePath src dst e.1, e.2)) (q, t)
        = (rebasePath src dst q, t) from rfl] at h1
    rw [rebasePath_of_not_pref hnp] at h1
    exact alookup_isSome_of_mem h1

/-- The moved entry `src ++ [n]` is never an ancestor of an already
written bucket file `dest ++ [s, m]`, given that the engine's source
directory is neither the destination root nor one of its buckets and
that moving onto the new destination `dest ++ [s', m']` succeeded. -/
theorem moved_dir_not_pref_bucket {src dest : FPath} {n s m s' m' : String}
    (hdisj : ∀ x, src ≠ dest ++ [x]) (hsrcne : src ≠ dest)
    (hnp : isPref (src ++ [n]) (dest ++ [s', m']) = false) :
    isPref (src ++ [n]) (dest ++ [s, m]) = false := by
  by_contra hc
  have hc' : isPref (src ++ [n]) (dest ++ [s, m]) = true := by
    revert hc; cases isPref (src ++ [n]) (dest ++ [s, m]) <;> simp
  rw [isPref_iff] at hc'
  obtain ⟨t, ht⟩ := hc'
  rcases List.append_eq_append_iff.mp ht.symm with ⟨a', ha1, ha2⟩ | ⟨c', hc1, hc2⟩
  · have hpref : isPref (src ++ [n]) (dest ++ [s', m']) = true := by
      rw [isPref_iff]
      exact ⟨a' ++ [s', m'], by rw [ha1]; simp⟩
    rw [hpref] at hnp
    exact absurd hnp (by simp)
  · rcases c' with _ | ⟨x, c''⟩
    · simp only [List.append_nil] at hc1
      have hpref : isPref (src ++ [n]) (dest ++ [s', m']) = true := by
        rw [isPref_iff]
        exact ⟨[s', m'], by rw [hc1]⟩
      rw [hpref] at hnp
      exact absurd hnp (by simp)
    · rcases c'' with _ | ⟨y, c'''⟩
      · have hlen : src.length = dest.length := by
          have h1 := congrArg List.length hc1
          simp at h1
          omega
        exact hsrcne (List.append_inj hc1 hlen).1
      · have hc2' := hc2
        simp only [List.cons_append, List.cons.injEq] at hc2'
        obtain ⟨-, -, h0⟩ := hc2'
        obtain ⟨rfl, rfl⟩ := List.append_eq_nil.mp h0.symm
        have hc4 : src ++ [n] = (dest ++ [x]) ++ [y] := by
          rw [hc1]; simp
        have hlen : src.length = (dest ++ [x]).length := by
          have h1 := congrArg List.length hc4
          simp only [List.length_append, List.length_cons, List.length_nil] at h1 ⊢
          omega
        exact hdisj x (List.append_inj hc4 hlen).1

theorem src_child_ne_bucket_file {src dest : FPath} {n s m : String}
    (hdisj : ∀ x, src ≠ dest ++ [x]) : src ++ [n] ≠ dest ++ [s, m] := by
  intro h
  have h2 : src ++ [n] = (dest ++ [s]) ++ [m] := by rw [h]; simp
  have hlen : src.length = (dest ++ [s]).length := by
    have h1 := congrArg List.length h2
    simp only [List.length_append, List.length_cons, List.length_nil] at h1 ⊢
    omega
  exact hdisj s (List.append_inj h2 hlen).1

/-- Everything one iteration of the move loop can do, stated only as
deeply as uniqueness needs. -/
theorem move_body_spec (eng : FileManagementLogic) (now : DateTime)
    (inj : String → Option String) (fs : FS) (n : String) (fs' : FS) (st : FileStep)
    (h : eng.move_file_body now inj fs n = (fs', st)) :
    ((∀ e, st ≠ .ok e) ∧ fs'.files = fs.files ∧
      (∀ q, fs.isDir q = true → fs'.isDir q = true))
    ∨ (∃ entry fs1,
        st = .ok entry ∧
        entry.file = n ∧ entry.fromPath = eng.target_folder_path ++ [n] ∧
        (∃ s, entry.toPath = eng.destination_folder_path ++ [entry.date_folder, s]) ∧
        fs1.files = fs.files ∧ (∀ q, fs.isDir q = true → fs1.isDir q = true) ∧
        os_path_exists fs1 entry.toPath = false ∧
        shutil_move fs1 entry.fromPath entry.toPath = .ok fs') := by
  unfold FileManagementLogic.move_file_body at h
  cases hinfo : eng.get_file_date_info fs n with
  | error e =>
    rw [hinfo] at h
    cases h
    exact Or.inl ⟨by simp, rfl, fun q hq => hq⟩
  | ok info =>
    rw [hinfo] at h
    try simp only [] at h
    cases hmk : (if !os_path_exists fs (eng.destination_folder_path ++ [info.date]) then
        os_makedirs fs (eng.destination_folder_path ++ [info.date]) now else .ok fs) with
    | error e =>
      rw [hmk] at h
      cases h
      exact Or.inl ⟨by simp, rfl, fun q hq => hq⟩
    | ok fs1 =>
      rw [hmk] at h
      try simp only [] at h
      have hfs1 : fs1.files = fs.files ∧ (∀ q, fs.isDir q = true → fs1.isDir q = true) := by
        cases hex : os_path_exists fs (eng.destination_folder_path ++ [info.date]) with
        | false =>
          rw [hex] at hmk
          rw [if_pos (by simp)] at hmk
          exact ⟨(os_makedirs_ok_parts hmk).1, fun q hq => os_makedirs_ok_isDir hmk hq⟩
        | true =>
          rw [hex] at hmk
          rw [if_neg (by simp)] at hmk
          cases hmk
          exact ⟨rfl, fun q hq => hq⟩
      cases hsrc : os_path_exists fs1 (eng.target_folder_path ++ [n]) with
      | false =>
        rw [hsrc] at h
        rw [if_pos (by simp)] at h
        cases h
        exact Or.inl ⟨by simp, hfs1.1, hfs1.2⟩
      | true =>
        rw [hsrc] at h
        rw [if_neg (by simp)] at h
        cases hinj : inj n with
        | some m =>
          rw [hinj] at h
          cases h
          exact Or.inl ⟨by simp, hfs1.1, hfs1.2⟩
        | none =>
          rw [hinj] at h
          cases hmv : shutil_move fs1 (eng.target_folder_path ++ [n])
              (resolve_collision fs1 (eng.destination_folder_path ++ [info.date]) n) with
          | error e =>
            rw [hmv] at h
            cases h
            exact Or.inl ⟨by simp, hfs1.1, hfs1.2⟩
          | ok fs2 =>
            rw [hmv] at h
            cases h
            have hfresh := resolve_collision_fresh fs1
              (eng.destination_folder_path ++ [info.date]) n
            obtain ⟨s, hshape⟩ := resolve_collision_shape fs1
              (eng.destination_folder_path ++ [info.date]) n
            exact Or.inr ⟨_, fs1, rfl, rfl, rfl, ⟨s, by simpa using hshape⟩,
              hfs1.1, hfs1.2, hfresh, hmv⟩

theorem move_body_preserves_inv {eng : FileManagementLogic} {now : DateTime}
    {inj : String → Option String} {fs : FS} {n : String} {fs' : FS} {st : FileStep}
    {entries : List OpFileInfo}
    (hdisj : ∀ s, eng.target_folder_path ≠ eng.destination_folder_path ++ [s])
    (hsrcne : eng.target_folder_path ≠ eng.destination_folder_path)
    (h : eng.move_file_body now inj fs n = (fs', st)) (hinv : MoveInv eng fs entries) :
    MoveInv eng fs' (stepEntries entries st) := by
  have hexB : ∀ fsa fsb : FS, fsb.files = fsa.files →
      (∀ q, fsa.isDir q = true → fsb.isDir q = true) →
      ∀ q, os_path_exists fsa q = true → os_path_exists fsb q = true := by
    intro fsa fsb hfe hdm q hq
    simp only [os_path_exists, Bool.or_eq_true] at hq ⊢
    rcases hq with hq | hq
    · exact Or.inl (by simpa [FS.isFile, FS.getFile, hfe] using hq)
    · exact Or.inr (hdm q hq)
  rcases move_body_spec eng now inj fs n fs' st h with
    ⟨hno, hfiles, hdirs⟩ | ⟨entry, fs1, hst, hfile, hfrom, ⟨s', hshape⟩, hfiles1, hdirs1,
      hfresh, hmv⟩
  · have hsteq : stepEntries entries st = entries := by
      cases st with
      | ok e => exact absurd rfl (hno e)
      | srcMissing m => rfl
      | exn m => rfl
    rw [hsteq]
    exact ⟨fun e he => hexB fs fs' hfiles hdirs _ (hinv.dests_exist e he),
      hinv.dests_nodup, hinv.dests_shape⟩
  · subst hst
    have hex1 : ∀ e ∈ entries, os_path_exists fs1 e.toPath = true :=
      fun e he => hexB fs fs1 hfiles1 hdirs1 _ (hinv.dests_exist e he)
    have hne : ∀ e ∈ entries, e.toPath ≠ entry.toPath := by
      intro e he heq
      have h1 := hex1 e he
      rw [heq, hfresh] at h1
      simp at h1
    have hnodup' : ((entries ++ [entry]).map OpFileInfo.toPath).Nodup := by
      rw [List.map_append, List.nodup_append]
      refine ⟨hinv.dests_nodup, by simp, ?_⟩
      intro p hp hq
      simp only [List.map_cons, List.map_nil, List.mem_singleton] at hq
      simp only [List.mem_map] at hp
      obtain ⟨e, he, rfl⟩ := hp
      exact hne e he hq
    have hshape' : ∀ e ∈ entries ++ [entry],
        ∃ a b, e.toPath = eng.destination_folder_path ++ [a, b] := by
      intro e he
      rcases List.mem_append.mp he with he | he
      · exact hinv.dests_shape e he
      · have heq : e = entry := by simpa using he
        subst heq
        exact ⟨e.date_folder, s', hshape⟩
    have hstep : stepEntries entries (.ok entry) = entries ++ [entry] := rfl
    rw [hstep]
    rcases shutil_move_fresh_ok hfresh hmv with ⟨d, hsome, rfl⟩ | ⟨hnof, hdirsrc, hnp, rfl⟩
    · -- a regular file was renamed
      refine ⟨fun e he => ?_, hnodup', hshape'⟩
      rcases List.mem_append.mp he with he | he
      · obtain ⟨a, b, hab⟩ := hinv.dests_shape e he
        have h1 := hex1 e he
        have hnesrc : e.toPath ≠ entry.fromPath := by
          rw [hab, hfrom]
          exact fun hc => src_child_ne_bucket_file hdisj hc.symm
        simp only [os_path_exists, Bool.or_eq_true, FS.isFile, FS.isDir, FS.getFile,
          FS.getDir] at h1 ⊢
        rcases h1 with h1 | h1
        · left
          rw [alookup_update, if_neg (hne e he)]
          rw [alookup_removeKey_ne _ _ _ hnesrc]
          exact h1
        · exact Or.inr h1
      · have heq : e = entry := by simpa using he
        subst heq
        simp only [os_path_exists, Bool.or_eq_true, FS.isFile, FS.getFile]
        left
        rw [alookup_update, if_pos rfl]
        rfl
    · -- a subdirectory was renamed with its subtree
      refine ⟨fun e he => ?_, hnodup', hshape'⟩
      rcases List.mem_append.mp he with he | he
      · obtain ⟨a, b, hab⟩ := hinv.dests_shape e he
        have hnpe : isPref entry.fromPath e.toPath = false := by
          rw [hab, hfrom]
          exact moved_dir_not_pref_bucket hdisj hsrcne (by
            rw [hfrom, hshape] at hnp
            exact hnp)
        exact exB_rebase_of_not_pref (hex1 e he) hnpe
      · have heq : e = entry := by simpa using he
        subst heq
        -- the destination of the rename itself exists afterwards
        have hmem : ∃ t, (e.toPath, t) ∈ (fs1.rebase e.fromPath e.toPath).dirs := by
          obtain ⟨t, hmem⟩ := alookup_isSome_mem (by
            simpa [FS.isDir, FS.getDir] using hdirsrc)
          refine ⟨t, ?_⟩
          have h1 := List.mem_map_of_mem
            (fun x : FPath × DateTime => (rebasePath e.fromPath e.toPath x.1, x.2)) hmem
          rw [show (fun x : FPath × DateTime => (rebasePath e.fromPath e.toPath x.1, x.2))
              (e.fromPath, t) = (rebasePath e.fromPath e.toPath e.fromPath, t) from rfl] at h1
          rw [show rebasePath e.fromPath e.toPath e.fromPath = e.toPath by
            unfold rebasePath
            rw [if_pos (by rw [isPref_iff]; exact ⟨[], by simp⟩)]
            simp] at h1
          exact h1
        obtain ⟨t, hmem⟩ := hmem
        simp only [os_path_exists, Bool.or_eq_true, FS.isDir, FS.getDir]
        exact Or.inr (alookup_isSome_of_mem hmem)

theorem move_loop_inv (eng : FileManagementLogic) (now : DateTime)
    (inj : String → Option String)
    (hdisj : ∀ s, eng.target_folder_path ≠ eng.destination_folder_path ++ [s])
    (hsrcne : eng.target_folder_path ≠ eng.destination_folder_path) :
    ∀ names fs entries errors, MoveInv eng fs entries →
      MoveInv eng (files_loop (eng.move_file_body now inj) names fs entries errors).1
        (files_loop (eng.move_file_body now inj) names fs entries errors).2.1 := by
  intro names
  induction names with
  | nil => intro fs entries errors hinv; exact hinv
  | cons n rest ih =>
    intro fs entries errors hinv
    cases hb : eng.move_file_body now inj fs n with
    | mk fs' st =>
      have hinv' := move_body_preserves_inv hdisj hsrcne hb hinv
      cases st with
      | ok e =>
        have hred : files_loop (eng.move_file_body now inj) (n :: rest) fs entries errors
            = files_loop (eng.move_file_body now inj) rest fs' (entries ++ [e]) errors := by
          simp only [files_loop]; rw [hb]
        rw [hred]
        exact ih fs' (entries ++ [e]) errors hinv'
      | srcMissing m =>
        have hred : files_loop (eng.move_file_body now inj) (n :: rest) fs entries errors
            = files_loop (eng.move_file_body now inj) rest fs' entries (errors ++ [m]) := by
          simp only [files_loop]; rw [hb]
        rw [hred]
        exact ih fs' entries (errors ++ [m]) hinv'
      | exn m =>
        have hred : files_loop (eng.move_file_body now inj) (n :: rest) fs entries errors
            = files_loop (eng.move_file_body now inj) rest fs' entries
                (errors ++ ["Error processing file " ++ quoteChar ++ n ++ quoteChar ++ ": " ++ m]) := by
          simp only [files_loop]; rw [hb]
        rw [hred]
        exact ih fs' entries _ hinv'

theorem move_files_run {eng : FileManagementLogic} {fs : FS} {now : DateTime}
    {inj : String → Option String} {eng' : FileManagementLogic} {fs' : FS}
    {entries : List OpFileInfo} {errors : List String}
    (hdisj : ∀ s, eng.target_folder_path ≠ eng.destination_folder_path ++ [s])
    (hsrcne : eng.target_folder_path ≠ eng.destination_folder_path)
    (h : eng.move_files_to_destination_folder fs now inj = .ok (eng', fs', entries, errors)) :
    (entries.map OpFileInfo.toPath).Nodup := by
  unfold FileManagementLogic.move_files_to_destination_folder at h
  cases hls : eng.get_target_files fs with
  | error e => rw [hls] at h; exact absurd h (by simp)
  | ok names =>
    rw [hls] at h
    try simp only [] at h
    cases hloop : files_loop (eng.move_file_body now inj) names fs [] [] with
    | mk fs2 rest2 =>
      obtain ⟨moved, errs⟩ := rest2
      rw [hloop] at h
      cases h
      have hinv0 : MoveInv eng fs [] := ⟨by simp, by simp, by simp⟩
      have h1 := move_loop_inv eng now inj hdisj hsrcne names fs [] [] hinv0
      rw [hloop] at h1
      exact h1.dests_nodup

theorem move_files_run_engine {eng : FileManagementLogic} {fs : FS} {now : DateTime}
    {inj : String → Option String} {eng' : FileManagementLogic} {fs' : FS}
    {entries : List OpFileInfo} {errors : List String}
    (h : eng.move_files_to_destination_folder fs now inj = .ok (eng', fs', entries, errors)) :
    eng' = (if entries.isEmpty then eng else eng._track_operation "move" entries now) ∧
    fs.isDir eng.target_folder_path = true ∧
    entries.length + errors.length = (listChildren fs eng.target_folder_path).length := by
  unfold FileManagementLogic.move_files_to_destination_folder at h
  cases hls : eng.get_target_files fs with
  | error e => rw [hls] at h; exact absurd h (by simp)
  | ok names =>
    rw [hls] at h
    try simp only [] at h
    cases hloop : files_loop (eng.move_file_body now inj) names fs [] [] with
    | mk fs2 rest2 =>
      obtain ⟨moved, errs⟩ := rest2
      rw [hloop] at h
      cases h
      obtain ⟨hdir, hnames⟩ := os_listdir_ok_isDir hls
      have hcounts := files_loop_counts (eng.move_file_body now inj) names fs [] []
      rw [hloop] at hcounts
      simp only [List.length_nil] at hcounts
      exact ⟨rfl, hdir, by rw [← hnames]; simpa using hcounts⟩

theorem copy_files_run_counts {eng : FileManagementLogic} {fs : FS} {now : DateTime}
    {inj : String → Option String} {eng' : FileManagementLogic} {fs' : FS}
    {entries : List OpFileInfo} {errors : List String}
    (h : eng.copy_files_to_destination_folder fs now inj = .ok (eng', fs', entries, errors)) :
    entries.length + errors.length = (listChildren fs eng.target_folder_path).length := by
  unfold FileManagementLogic.copy_files_to_destination_folder at h
  cases hls : eng.get_target_files fs with
  | error e => rw [hls] at h; exact absurd h (by simp)
  | ok names =>
    rw [hls] at h
    try simp only [] at h
    cases hloop : files_loop (eng.copy_file_body now inj) names fs [] [] with
    | mk fs2 rest2 =>
      obtain ⟨copied, errs⟩ := rest2
      rw [hloop] at h
      cases h
      obtain ⟨-, hnames⟩ := os_listdir_ok_isDir hls
      have hcounts := files_loop_counts (eng.copy_file_body now inj) names fs [] []
      rw [hloop] at hcounts
      simp only [List.length_nil] at hcounts
      rw [← hnames]
      simpa using hcounts

theorem move_files_error_iff (eng : FileManagementLogic) (fs : FS) (now : DateTime)
    (inj : String → Option String) :
    (∃ e, eng.move_files_to_destination_folder fs now inj = .error e) ↔
      fs.isDir eng.target_folder_path = false := by
  unfold FileManagementLogic.move_files_to_destination_folder
  cases hls : eng.get_target_files fs with
  | error e =>
    have h1 := (os_listdir_error_iff fs eng.target_folder_path).mp ⟨e, hls⟩
    simp only [h1, iff_true]
    exact ⟨e, rfl⟩
  | ok names =>
    have h1 : fs.isDir eng.target_folder_path = true := (os_listdir_ok_isDir hls).1
    rw [h1]
    simp only [Bool.true_eq_false, iff_false, not_exists]
    intro e
    cases hloop : files_loop (eng.move_file_body now inj) names fs [] [] with
    | mk fs2 rest2 =>
      obtain ⟨moved, errs⟩ := rest2
      simp [hloop]

theorem copy_files_error_iff (eng : FileManagementLogic) (fs : FS) (now : DateTime)
    (inj : String → Option String) :
    (∃ e, eng.copy_files_to_destination_folder fs now inj = .error e) ↔
      fs.isDir eng.target_folder_path = false := by
  unfold FileManagementLogic.copy_files_to_destination_folder
  cases hls : eng.get_target_files fs with
  | error e =>
    have h1 := (os_listdir_error_iff fs eng.target_folder_path).mp ⟨e, hls⟩
    simp only [h1, iff_true]
    exact ⟨e, rfl⟩
  | ok names =>
    have h1 : fs.isDir eng.target_folder_path = true := (os_listdir_ok_isDir hls).1
    rw [h1]
    simp only [Bool.true_eq_false, iff_false, not_exists]
    intro e
    cases hloop : files_loop (eng.copy_file_body now inj) names fs [] [] with
    | mk fs2 rest2 =>
      obtain ⟨copied, errs⟩ := rest2
      simp [hloop]

/-! ## Lemmas: the date-probe pipeline matches its specification -/

theorem strptime_full (s : String) :
    strptime s "%Y-%m-%d %H:%M:%S" = strptimeCore s.toList fmtFull := by
  unfold strptime
  rw [if_pos rfl]

theorem strptime_dash (s : String) :
    strptime s "%Y-%m-%d" = strptimeCore s.toList fmtDash := by
  unfold strptime
  rw [if_neg (by decide), if_pos rfl]

theorem strptime_slash (s : String) :
    strptime s "%Y/%m/%d" = strptimeCore s.toList fmtSlash := by
  unfold strptime
  rw [if_neg (by decide), if_neg (by decide), if_pos rfl]

/-- A successful format match only ever consumes digits, the format's
literal characters, and whitespace. -/
theorem runFmt_chars : ∀ (toks : List FTok) (s : List Char) (acc r : DTParts),
    runFmt toks s acc = some r →
    ∀ c ∈ s, c.isDigit = true ∨ FTok.lit c ∈ toks ∨ c.isWhitespace = true := by
  intro toks
  induction toks with
  | nil =>
    intro s acc r h c hc
    unfold runFmt at h
    split at h
    · next hs =>
      rw [List.isEmpty_iff] at hs
      subst hs
      simp at hc
    · exact absurd h (by simp)
  | cons t rest ih =>
    intro s acc r h c hc
    cases t
    case lit c' =>
      cases s with
      | nil => simp at hc
      | cons c'' s' =>
        simp only [runFmt] at h
        split at h
        · next hcc =>
          rcases List.mem_cons.mp hc with rfl | hc'
          · exact Or.inr (Or.inl (by simp [hcc]))
          · rcases ih s' acc r h c hc' with h1 | h1 | h1
            · exact Or.inl h1
            · exact Or.inr (Or.inl (by simp [h1]))
            · exact Or.inr (Or.inr h1)
        · exact absurd h (by simp)
    case ws =>
      simp only [runFmt] at h
      split at h
      · exact absurd h (by simp)
      · have hsplit : s = s.takeWhile Char.isWhitespace ++ s.dropWhile Char.isWhitespace :=
          (List.takeWhile_append_dropWhile ..).symm
        rw [hsplit] at hc
        rcases List.mem_append.mp hc with hc' | hc'
        · exact Or.inr (Or.inr (List.mem_takeWhile_imp hc'))
        · rcases ih _ acc r h c hc' with h1 | h1 | h1
          · exact Or.inl h1
          · exact Or.inr (Or.inl (by simp [h1]))
          · exact Or.inr (Or.inr h1)
    all_goals (
      simp only [runFmt] at h
      split at h
      · next v hm =>
        have hsplit : s = s.takeWhile Char.isDigit ++ s.dropWhile Char.isDigit :=
          (List.takeWhile_append_dropWhile ..).symm
        rw [hsplit] at hc
        rcases List.mem_append.mp hc with hc' | hc'
        · exact Or.inl (List.mem_takeWhile_imp hc')
        · rcases ih _ _ r h c hc' with h1 | h1 | h1
          · exact Or.inl h1
          · exact Or.inr (Or.inl (by simp [h1]))
          · exact Or.inr (Or.inr h1)
      · exact absurd h (by simp))

theorem strptimeCore_dash_colon {s : List Char} (h : ':' ∈ s) :
    strptimeCore s fmtDash = none := by
  unfold strptimeCore
  cases hr : runFmt fmtDash s {} with
  | none => rfl
  | some p =>
    rcases runFmt_chars fmtDash s {} p hr ':' h with h1 | h1 | h1
    · exact absurd h1 (by decide)
    · exact absurd h1 (by decide)
    · exact absurd h1 (by decide)

theorem strptimeCore_slash_colon {s : List Char} (h : ':' ∈ s) :
    strptimeCore s fmtSlash = none := by
  unfold strptimeCore
  cases hr : runFmt fmtSlash s {} with
  | none => rfl
  | some p =>
    rcases runFmt_chars fmtSlash s {} p hr ':' h with h1 | h1 | h1
    · exact absurd h1 (by decide)
    · exact absurd h1 (by decide)
    · exact absurd h1 (by decide)

theorem replaceCharCount_not_mem (s : List Char) (o n' : Char) (k : Nat) (h : o ∉ s) :
    replaceCharCount s o n' k = s := by
  induction s generalizing k with
  | nil => rfl
  | cons c cs ih =>
    have hco : c ≠ o := fun hc => h (by simp [hc])
    have hcs : o ∉ cs := fun hc => h (by simp [hc])
    unfold replaceCharCount
    by_cases hk : k = 0
    · rw [if_pos hk]
    · rw [if_neg hk, if_neg hco, ih k hcs]

theorem parseExifString_eq_claim (v : String) :
    parseExifString v = claimC2_parse_value v := by
  unfold parseExifString claimC2_parse_value
  by_cases hc : v.toList.contains ':' = true
  · rw [if_pos hc]
    have hmem : ':' ∈ v.toList := by
      simpa using hc
    have hdash : strptime v "%Y-%m-%d" = none := by
      rw [strptime_dash]
      exact strptimeCore_dash_colon hmem
    have hslash : strptime v "%Y/%m/%d" = none := by
      rw [strptime_slash]
      exact strptimeCore_slash_colon hmem
    rw [hdash, hslash]
    cases strptime (String.mk (replaceCharCount (replaceCharCount v.toList ':' '-' 2)
        ':' ' ' 1)) "%Y-%m-%d %H:%M:%S" <;> rfl
  · rw [if_neg hc]
    have hmem : ':' ∉ v.toList := by
      simpa using hc
    have hrep : replaceCharCount (replaceCharCount v.toList ':' '-' 2) ':' ' ' 1 = v.toList := by
      rw [replaceCharCount_not_mem _ _ _ _ hmem, replaceCharCount_not_mem _ _ _ _ hmem]
    rw [hrep]
    have hmk : String.mk v.toList = v := rfl
    rw [hmk]

theorem probe_date_fields_eq_claim (fields : List Nat) (exif_data : List (Nat × String)) :
    probe_date_fields fields exif_data = fields.findSome? (fun field_id =>
      match alookup exif_data field_id with
      | some date_str => if date_str ≠ "" then claimC2_parse_value date_str else none
      | none => none) := by
  induction fields with
  | nil => rfl
  | cons f rest ih =>
    rw [List.findSome?_cons]
    unfold probe_date_fields
    cases halk : alookup exif_data f with
    | none => simpa using ih
    | some v =>
      try simp only []
      by_cases hv : v ≠ ""
      · rw [if_pos hv, if_pos hv, ← parseExifString_eq_claim]
        cases parseExifString v with
        | some dt => simp
        | none => simpa using ih
      · rw [if_neg hv, if_neg hv]
        simpa using ih

/-! ## Lemmas: copy entries always come from regular files -/

theorem copy_body_preserves_srcfile {eng : FileManagementLogic} {now : DateTime}
    {inj : String → Option String} {fs : FS} {n : String} {fs' : FS} {st : FileStep}
    {entries : List OpFileInfo}
    (hdisj : ∀ s, eng.target_folder_path ≠ eng.destination_folder_path ++ [s])
    (h : eng.copy_file_body now inj fs n = (fs', st)) (hinv : CopyInv eng fs entries)
    (hsf : ∀ e ∈ entries, fs.isFile e.fromPath = true) :
    ∀ e ∈ stepEntries entries st, fs'.isFile e.fromPath = true := by
  rcases copy_body_spec eng now inj fs n fs' st h with
    ⟨hno, hfiles, hdirs⟩ | ⟨entry, fs1, d, hst, hfile, hfrom, ⟨s, hshape⟩, hfiles1, hdirs1,
      hfresh, hsome, hpardir, hfs'⟩
  · have hsteq : stepEntries entries st = entries := by
      cases st with
      | ok e => exact absurd rfl (hno e)
      | srcMissing m => rfl
      | exn m => rfl
    rw [hsteq]
    intro e he
    have h1 := hsf e he
    simpa [FS.isFile, FS.getFile, hfiles] using h1
  · subst hst
    have hget : ∀ q, fs'.getFile q = if q = entry.toPath then some d else fs.getFile q := by
      intro q
      rw [hfs']
      show alookup ((entry.toPath, d) :: removeKey fs1.files entry.toPath) q = _
      rw [alookup_update]
      by_cases hq : q = entry.toPath
      · simp [hq]
      · simp only [if_neg hq]
        show alookup fs1.files q = FS.getFile fs q
        rw [hfiles1]
        rfl
    intro e he
    rcases List.mem_append.mp he with he | he
    · have h1 := hsf e he
      have hne : e.fromPath ≠ entry.toPath := by
        rw [hinv.from_shape e he, hshape]
        exact src_child_ne_bucket_file hdisj
      simp only [FS.isFile]
      rw [hget, if_neg hne]
      exact h1
    · have heq : e = entry := by simpa using he
      subst heq
      have hne : e.fromPath ≠ e.toPath := by
        rw [hfrom, hshape]
        exact src_child_ne_bucket_file hdisj
      simp only [FS.isFile]
      rw [hget, if_neg hne]
      have h1 : fs.getFile e.fromPath = some d := by
        rw [show FS.getFile fs e.fromPath = alookup fs.files e.fromPath from rfl, ← hfiles1]
        exact hsome
      rw [h1]
      rfl

theorem copy_loop_srcfile (eng : FileManagementLogic) (now : DateTime)
    (inj : String → Option String)
    (hdisj : ∀ s, eng.target_folder_path ≠ eng.destination_folder_path ++ [s]) :
    ∀ names fs entries errors, CopyInv eng fs entries →
      (∀ e ∈ entries, fs.isFile e.fromPath = true) →
      ∀ e ∈ (files_loop (eng.copy_file_body now inj) names fs entries errors).2.1,
        (files_loop (eng.copy_file_body now inj) names fs entries errors).1.isFile e.fromPath
          = true := by
  intro names
  induction names with
  | nil => intro fs entries errors _ hsf; exact hsf
  | cons n rest ih =>
    intro fs entries errors hinv hsf
    cases hb : eng.copy_file_body now inj fs n with
    | mk fs' st =>
      obtain ⟨hinv', -⟩ := copy_body_preserves_inv hb hinv
      have hsf' := copy_body_preserves_srcfile hdisj hb hinv hsf
      cases st with
      | ok e =>
        have hred : files_loop (eng.copy_file_body now inj) (n :: rest) fs entries errors
            = files_loop (eng.copy_file_body now inj) rest fs' (entries ++ [e]) errors := by
          simp only [files_loop]; rw [hb]
        rw [hred]
        exact ih fs' (entries ++ [e]) errors hinv' hsf'
      | srcMissing m =>
        have hred : files_loop (eng.copy_file_body now inj) (n :: rest) fs entries errors
            = files_loop (eng.copy_file_body now inj) rest fs' entries (errors ++ [m]) := by
          simp only [files_loop]; rw [hb]
        rw [hred]
        exact ih fs' entries (errors ++ [m]) hinv' hsf'
      | exn m =>
        have hred : files_loop (eng.copy_file_body now inj) (n :: rest) fs entries errors
            = files_loop (eng.copy_file_body now inj) rest fs' entries
                (errors ++ ["Error processing file " ++ quoteChar ++ n ++ quoteChar ++ ": " ++ m]) := by
          simp only [files_loop]; rw [hb]
        rw [hred]
        exact ih fs' entries _ hinv' hsf'

theorem copy_files_srcfile {eng : FileManagementLogic} {fs : FS} {now : DateTime}
    {inj : String → Option String} {eng' : FileManagementLogic} {fs' : FS}
    {entries : List OpFileInfo} {errors : List String}
    (hdisj : ∀ s, eng.target_folder_path ≠ eng.destination_folder_path ++ [s])
    (h : eng.copy_files_to_destination_folder fs now inj = .ok (eng', fs', entries, errors)) :
    ∀ e ∈ entries, fs'.isFile e.fromPath = true ∧ e.fromPath = eng.target_folder_path ++ [e.file] := by
  unfold FileManagementLogic.copy_files_to_destination_folder at h
  cases hls : eng.get_target_files fs with
  | error e => rw [hls] at h; exact absurd h (by simp)
  | ok names =>
    rw [hls] at h
    try simp only [] at h
    cases hloop : files_loop (eng.copy_file_body now inj) names fs [] [] with
    | mk fs2 rest2 =>
      obtain ⟨copied, errs⟩ := rest2
      rw [hloop] at h
      cases h
      have hinv0 : CopyInv eng fs [] := ⟨by simp, by simp, by simp, by simp, by simp⟩
      have h1 := copy_loop_srcfile eng now inj hdisj names fs [] [] hinv0 (by simp)
      have h2 := copy_loop_inv eng now inj names fs [] [] hinv0
      rw [hloop] at h1 h2
      exact fun e he => ⟨h1 e he, h2.1.from_shape e he⟩

/-! ## Lemmas: undo of a move entry overwrites the source path -/

theorem shutil_move_file_over_file {fs : FS} {src dst : FPath} {d : FileData}
    (hsrc : fs.getFile src = some d) (hdstdir : fs.isDir dst = false)
    (hpar : fs.isDir dst.dropLast = true) :
    shutil_move fs src dst
      = .ok { fs with files := (dst, d) :: removeKey (removeKey fs.files src) dst } := by
  unfold shutil_move
  rw [hdstdir]
  simp only [Bool.false_eq_true, if_false, Bool.false_and]
  rw [hpar]
  simp only [Bool.not_true, Bool.false_eq_true, if_false]
  rw [hsrc]

/-! ## Lemmas: shape of the undo dispatcher's failure paths -/

theorem undo_move_operation_cases (eng : FileManagementLogic) (fs : FS)
    (injU : FPath → Option String) (l : List OpFileInfo) :
    ((eng._undo_move_operation fs injU l).1 = false →
      (eng._undo_move_operation fs injU l).2.1 = eng) ∧
    ((eng._undo_move_operation fs injU l).1 = true →
      (eng._undo_move_operation fs injU l).2.1 = { eng with last_operation := none }) := by
  unfold FileManagementLogic._undo_move_operation
  cases FileManagementLogic.undo_move_loop injU l fs [] with
  | error p => obtain ⟨m, fs'⟩ := p; exact ⟨fun _ => rfl, fun h => by simp at h⟩
  | ok p => obtain ⟨fs', folders⟩ := p; exact ⟨fun h => by simp at h, fun _ => rfl⟩

theorem undo_copy_operation_cases (eng : FileManagementLogic) (fs : FS)
    (injU : FPath → Option String) (l : List OpFileInfo) :
    ((eng._undo_copy_operation fs injU l).1 = false →
      (eng._undo_copy_operation fs injU l).2.1 = eng) ∧
    ((eng._undo_copy_operation fs injU l).1 = true →
      (eng._undo_copy_operation fs injU l).2.1 = { eng with last_operation := none }) := by
  unfold FileManagementLogic._undo_copy_operation
  cases FileManagementLogic.undo_copy_loop injU l fs [] with
  | error p => obtain ⟨m, fs'⟩ := p; exact ⟨fun _ => rfl, fun h => by simp at h⟩
  | ok p => obtain ⟨fs', folders⟩ := p; exact ⟨fun h => by simp at h, fun _ => rfl⟩

theorem undo_false_preserves (eng : FileManagementLogic) (fs : FS)
    (injU : FPath → Option String) :
    (eng.undo_last_action fs injU).1 = false → (eng.undo_last_action fs injU).2.1 = eng := by
  intro h
  unfold FileManagementLogic.undo_last_action at h ⊢
  cases hl : eng.last_operation with
  | none => rfl
  | some op =>
    rw [hl] at h
    try simp only [] at h ⊢
    by_cases ht : op.type = "move"
    · rw [if_pos ht] at h ⊢
      exact (undo_move_operation_cases eng fs injU op.files).1 h
    · rw [if_neg ht] at h ⊢
      by_cases hc : op.type = "copy"
      · rw [if_pos hc] at h ⊢
        exact (undo_copy_operation_cases eng fs injU op.files).1 h
      · rw [if_neg hc]

theorem undo_true_clears (eng : FileManagementLogic) (fs : FS)
    (injU : FPath → Option String) :
    (eng.undo_last_action fs injU).1 = true →
    (eng.undo_last_action fs injU).2.1.last_operation = none := by
  intro h
  unfold FileManagementLogic.undo_last_action at h ⊢
  cases hl : eng.last_operation with
  | none =>
    rw [hl] at h
    simp at h
  | some op =>
    rw [hl] at h
    try simp only [] at h ⊢
    by_cases ht : op.type = "move"
    · rw [if_pos ht] at h ⊢
      rw [(undo_move_operation_cases eng fs injU op.files).2 h]
    · rw [if_neg ht] at h ⊢
      by_cases hc : op.type = "copy"
      · rw [if_pos hc] at h ⊢
        rw [(undo_copy_operation_cases eng fs injU op.files).2 h]
      · rw [if_neg hc] at h
        simp at h

theorem undo_move_operation_history (eng : FileManagementLogic) (fs : FS)
    (injU : FPath → Option String) (l : List OpFileInfo) :
    (eng._undo_move_operation fs injU l).2.1.operation_history = eng.operation_history := by
  unfold FileManagementLogic._undo_move_operation
  cases FileManagementLogic.undo_move_loop injU l fs [] with
  | error p => obtain ⟨m, fs'⟩ := p; rfl
  | ok p => obtain ⟨fs', folders⟩ := p; rfl

theorem undo_copy_operation_history (eng : FileManagementLogic) (fs : FS)
    (injU : FPath → Option String) (l : List OpFileInfo) :
    (eng._undo_copy_operation fs injU l).2.1.operation_history = eng.operation_history := by
  unfold FileManagementLogic._undo_copy_operation
  cases FileManagementLogic.undo_copy_loop injU l fs [] with
  | error p => obtain ⟨m, fs'⟩ := p; rfl
  | ok p => obtain ⟨fs', folders⟩ := p; rfl

theorem undo_history_unchanged (eng : FileManagementLogic) (fs : FS)
    (injU : FPath → Option String) :
    (eng.undo_last_action fs injU).2.1.operation_history = eng.operation_history := by
  unfold FileManagementLogic.undo_last_action
  cases hl : eng.last_operation with
  | none => rfl
  | some op =>
    try simp only []
    by_cases ht : op.type = "move"
    · rw [if_pos ht]
      exact undo_move_operation_history eng fs injU op.files
    · rw [if_neg ht]
      by_cases hc : op.type = "copy"
      · rw [if_pos hc]
        exact undo_copy_operation_history eng fs injU op.files
      · rw [if_neg hc]

theorem undo_move_single_spec {eng : FileManagementLogic} {fs : FS} {fi : OpFileInfo}
    {d : FileData}
    (hdst : fs.getFile fi.toPath = some d)
    (hnd : fs.isDir fi.fromPath = false)
    (hpar : fs.isDir fi.fromPath.dropLast = true) :
    ∃ fs2, eng._undo_move_operation fs (fun _ => none) [fi]
        = (true, { eng with last_operation := none }, fs2) ∧
      fs2.getFile fi.fromPath = some d ∧
      (fi.fromPath ≠ fi.toPath → fs2.isFile fi.toPath = false) := by
  have hf : fs.isFile fi.toPath = true := by
    simp [FS.isFile, hdst]
  have hexists : os_path_exists fs fi.toPath = true := by
    simp [os_path_exists, hf]
  have hmv := shutil_move_file_over_file hdst hnd hpar
  have hloop : FileManagementLogic.undo_move_loop (fun _ => none) [fi] fs []
      = .ok ((⟨(fi.fromPath, d) :: removeKey (removeKey fs.files fi.toPath) fi.fromPath,
          fs.dirs⟩ : FS), [fi.toPath.dropLast]) := by
    simp only [FileManagementLogic.undo_move_loop, hexists, hmv, if_true]
    rfl
  unfold FileManagementLogic._undo_move_operation
  rw [hloop]
  refine ⟨_, rfl, ?_, ?_⟩
  · simp only [FS.getFile]
    rw [remove_empty_folders_files]
    show alookup ((fi.fromPath, d) :: removeKey (removeKey fs.files fi.toPath) fi.fromPath)
      fi.fromPath = some d
    rw [alookup_update, if_pos rfl]
  · intro hne
    simp only [FS.isFile, FS.getFile]
    rw [remove_empty_folders_files]
    show (alookup ((fi.fromPath, d) :: removeKey (removeKey fs.files fi.toPath) fi.fromPath)
      fi.toPath).isSome = false
    rw [alookup_update, if_neg (fun hc => hne hc.symm)]
    rw [alookup_removeKey_self]
    rfl

/-! ## The claims -/

/-- C9: every format selector other than `DD-MM-YYYY`, `MM-DD-YYYY` and
`YYYY-MM-DD` silently falls back to the `YYYY-MM-DD` format string, so
bucket naming is exactly that of the `YYYY-MM-DD` selector and no error
is possible (`format_date` is total). -/
theorem C9_format_default (eng : FileManagementLogic)
    (h1 : eng.format_type ≠ "DD-MM-YYYY") (h2 : eng.format_type ≠ "MM-DD-YYYY")
    (h3 : eng.format_type ≠ "YYYY-MM-DD") :
    eng.format_date = "%Y-%m-%d" ∧
    eng.format_date = FileManagementLogic.format_date { eng with format_type := "YYYY-MM-DD" } ∧
    (∀ dt : DateTime, strftime dt eng.format_date
      = strftime dt (FileManagementLogic.format_date { eng with format_type := "YYYY-MM-DD" })) := by
  have hmain : eng.format_date = "%Y-%m-%d" := by
    unfold FileManagementLogic.format_date
    rw [if_neg h1, if_neg h2, if_neg h3]
  have hymd : FileManagementLogic.format_date { eng with format_type := "YYYY-MM-DD" }
      = "%Y-%m-%d" := rfl
  exact ⟨hmain, by rw [hmain, hymd], fun dt => by rw [hmain, hymd]⟩

/-- Witness for C9 at the unrecognized selector `"ISO"`. -/
theorem C9_witness :
    FileManagementLogic.format_date ⟨["src"], ["dst"], "ISO", none, []⟩ = "%Y-%m-%d" :=
  (C9_format_default ⟨["src"], ["dst"], "ISO", none, []⟩
    (by decide) (by decide) (by decide)).1

/-- C5: `undo_last_action` always returns a boolean result (the
embedding is a total function); it returns `false` with engine state
untouched when there is no last operation or when the recorded kind is
neither `"move"` nor `"copy"`; every failing run — including one whose
undo path hits an injected unexpected exception — leaves the engine
state unchanged so a retry is possible; the last operation is cleared
exactly by a successful undo. -/
theorem C5_undo_fails_closed (eng : FileManagementLogic) (fs : FS)
    (injU : FPath → Option String) :
    (eng.last_operation = none → eng.undo_last_action fs injU = (false, eng, fs)) ∧
    (∀ op, eng.last_operation = some op → op.type ≠ "move" → op.type ≠ "copy" →
      eng.undo_last_action fs injU = (false, eng, fs)) ∧
    ((eng.undo_last_action fs injU).1 = false → (eng.undo_last_action fs injU).2.1 = eng) ∧
    ((eng.undo_last_action fs injU).1 = true →
      (eng.undo_last_action fs injU).2.1.last_operation = none) := by
  refine ⟨?_, ?_, undo_false_preserves eng fs injU, undo_true_clears eng fs injU⟩
  · intro h
    unfold FileManagementLogic.undo_last_action
    rw [h]
  · intro op hop hm hc
    unfold FileManagementLogic.undo_last_action
    rw [hop]
    try simp only []
    rw [if_neg hm, if_neg hc]

/-- Witness for C5: a fresh engine refuses to undo, and an engine whose
recorded kind is the unknown `"merge"` also fails without state change. -/
theorem C5_witness :
    FileManagementLogic.undo_last_action engSrcDst fsTwoFiles injUNone
        = (false, engSrcDst, fsTwoFiles) ∧
    FileManagementLogic.undo_last_action
        { engSrcDst with last_operation := some ⟨"merge", [], exT0⟩ } fsTwoFiles injUNone
      = (false, { engSrcDst with last_operation := some ⟨"merge", [], exT0⟩ }, fsTwoFiles) :=
  ⟨(C5_undo_fails_closed engSrcDst fsTwoFiles injUNone).1 rfl,
   (C5_undo_fails_closed { engSrcDst with last_operation := some ⟨"merge", [], exT0⟩ }
      fsTwoFiles injUNone).2.1 ⟨"merge", [], exT0⟩ rfl (by decide) (by decide)⟩

/-- C7: an operation is recorded as the last operation only when its
entries list is non-empty (an empty batch leaves the engine record
untouched); each successful non-empty batch replaces the last operation
with its own record (`last_operation : Option Operation` holds at most
one at a time by construction); a successful undo clears it to `none`. -/
theorem C7_last_operation_lifecycle (eng : FileManagementLogic) (fs : FS) (now : DateTime)
    (inj : String → Option String) :
    (∀ eng' fs' entries errors,
      eng.move_files_to_destination_folder fs now inj = .ok (eng', fs', entries, errors) →
      (entries = [] → eng' = eng) ∧
      (entries ≠ [] → eng'.last_operation = some ⟨"move", entries, now⟩)) ∧
    (∀ eng' fs' entries errors,
      eng.copy_files_to_destination_folder fs now inj = .ok (eng', fs', entries, errors) →
      (entries = [] → eng' = eng) ∧
      (entries ≠ [] → eng'.last_operation = some ⟨"copy", entries, now⟩)) ∧
    (∀ injU, (eng.undo_last_action fs injU).1 = true →
      (eng.undo_last_action fs injU).2.1.last_operation = none) := by
  refine ⟨?_, ?_, fun injU => undo_true_clears eng fs injU⟩
  · intro eng' fs' entries errors h
    obtain ⟨heng, -, -⟩ := move_files_run_engine h
    constructor
    · intro he
      subst he
      simpa using heng
    · intro hne
      have hne' : entries.isEmpty = false := by
        cases entries with
        | nil => exact absurd rfl hne
        | cons a l => rfl
      rw [heng, hne']
      rw [if_neg (by simp)]
      rfl
  · intro eng' fs' entries errors h
    obtain ⟨-, -, heng, -⟩ := copy_files_run h
    constructor
    · intro he
      subst he
      simpa using heng
    · intro hne
      have hne' : entries.isEmpty = false := by
        cases entries with
        | nil => exact absurd rfl hne
        | cons a l => rfl
      rw [heng, hne']
      rw [if_neg (by simp)]
      rfl

/-- Witness for C7: the concrete two-file copy run records a `"copy"`
operation carrying exactly its entries. -/
theorem C7_witness :
    (runEngine c7run).last_operation = some ⟨"copy", runEntries c7run, exT0⟩ :=
  ((C7_last_operation_lifecycle engSrcDst fsTwoFiles exT0 injNone).2.1
    (runEngine c7run) (runFS c7run) (runEntries c7run) (runErrors c7run) rfl).2
    (by decide)

/-- C8: the operation history is an insertion-ordered sequence of
capacity 10: `_track_operation` appends the new record and evicts the
oldest entry exactly when the append would exceed 10; every engine
operation keeps the length at most 10, and undo leaves the history
untouched (append-only except for eviction). -/
theorem C8_history_capacity (eng : FileManagementLogic) (t : String)
    (l : List OpFileInfo) (now : DateTime) :
    (eng.operation_history.length < 10 →
      (eng._track_operation t l now).operation_history
        = eng.operation_history ++ [⟨t, l, now⟩]) ∧
    (eng.operation_history.length = 10 →
      (eng._track_operation t l now).operation_history
        = eng.operation_history.drop 1 ++ [⟨t, l, now⟩]) ∧
    (eng.operation_history.length ≤ 10 →
      (eng._track_operation t l now).operation_history.length ≤ 10) ∧
    (∀ fs inj eng2 fs2 entries errors,
      eng.move_files_to_destination_folder fs now inj = .ok (eng2, fs2, entries, errors) →
      eng.operation_history.length ≤ 10 → eng2.operation_history.length ≤ 10) ∧
    (∀ fs inj eng2 fs2 entries errors,
      eng.copy_files_to_destination_folder fs now inj = .ok (eng2, fs2, entries, errors) →
      eng.operation_history.length ≤ 10 → eng2.operation_history.length ≤ 10) ∧
    (∀ fs injU, ((eng.undo_last_action fs injU).2.1).operation_history
        = eng.operation_history) := by
  have htrack : ∀ (t2 : String) (l2 : List OpFileInfo), eng.operation_history.length ≤ 10 →
      (eng._track_operation t2 l2 now).operation_history.length ≤ 10 := by
    intro t2 l2 hle
    simp only [FileManagementLogic._track_operation]
    by_cases hgt : (eng.operation_history ++ [(⟨t2, l2, now⟩ : Operation)]).length > 10
    · rw [if_pos hgt]
      simp only [List.length_drop, List.length_append, List.length_cons, List.length_nil]
      omega
    · rw [if_neg hgt]
      simp only [List.length_append, List.length_cons, List.length_nil] at hgt ⊢
      omega
  refine ⟨?_, ?_, htrack t l, ?_, ?_, fun fs injU => undo_history_unchanged eng fs injU⟩
  · intro hlt
    simp only [FileManagementLogic._track_operation]
    rw [if_neg (by simp only [List.length_append, List.length_cons, List.length_nil]; omega)]
  · intro heq
    simp only [FileManagementLogic._track_operation]
    rw [if_pos (by simp only [List.length_append, List.length_cons, List.length_nil]; omega)]
    cases hh : eng.operation_history with
    | nil => rw [hh] at heq; simp at heq
    | cons a rest => simp
  · intro fs inj eng2 fs2 entries errors h hle
    obtain ⟨heng, -, -⟩ := move_files_run_engine h
    rw [heng]
    by_cases he : entries.isEmpty
    · rw [if_pos he]; exact hle
    · rw [if_neg he]; exact htrack "move" entries hle
  · intro fs inj eng2 fs2 entries errors h hle
    obtain ⟨-, -, heng, -⟩ := copy_files_run h
    rw [heng]
    by_cases he : entries.isEmpty
    · rw [if_pos he]; exact hle
    · rw [if_neg he]; exact htrack "copy" entries hle

/-- Witness for C8: tracking an operation on the fresh engine appends
it to the empty history. -/
theorem C8_witness :
    (FileManagementLogic._track_operation engSrcDst "copy" [] exT0).operation_history
      = [⟨"copy", [], exT0⟩] :=
  (C8_history_capacity engSrcDst "copy" [] exT0).1 (by decide)

/-- C10: during undo of a move, an entry whose destination still exists
is moved back to the recorded source path unconditionally — no
hypothesis about the source path being unoccupied is needed, and the
moved-back data ends up at the source path regardless of what was there. -/
theorem C10_undo_move_overwrites_source (eng : FileManagementLogic) (fs : FS)
    (fi : OpFileInfo) (d : FileData)
    (hdst : fs.getFile fi.toPath = some d)
    (hnd : fs.isDir fi.fromPath = false)
    (hpar : fs.isDir fi.fromPath.dropLast = true)
    (hne : fi.fromPath ≠ fi.toPath) :
    ∃ fs2, eng._undo_move_operation fs (fun _ => none) [fi]
        = (true, { eng with last_operation := none }, fs2) ∧
      fs2.getFile fi.fromPath = some d ∧
      fs2.isFile fi.toPath = false := by
  obtain ⟨fs2, h1, h2, h3⟩ := undo_move_single_spec hdst hnd hpar
  exact ⟨fs2, h1, h2, h3 hne⟩

/-- Witness for C10: the source path is occupied by a different file
before the undo, and holds the moved-back bucket file afterwards. -/
theorem C10_witness :
    fsOccupied.getFile ["src", "doc.txt"] = some exJpgData ∧
    exJpgData ≠ exDocData ∧
    ∃ fs2, FileManagementLogic._undo_move_operation engSrcDst fsOccupied
          (fun _ => none) [entMoveBack]
        = (true, { engSrcDst with last_operation := none }, fs2) ∧
      fs2.getFile ["src", "doc.txt"] = some exDocData ∧
      fs2.isFile ["dst", "2024-03-10", "doc.txt"] = false :=
  ⟨rfl, by decide,
   C10_undo_move_overwrites_source engSrcDst fsOccupied entMoveBack exDocData
     rfl rfl rfl (by decide)⟩

/-- C1 (counterexample): the listing used by the batch operations is a
bare `os.listdir`, which includes subdirectories.  Moving a source
containing only the subdirectory `sub` relocates it into the date
bucket and gives it a manifest entry, contradicting the claim that
subdirectories are never moved or given a manifest entry. -/
theorem C1_counterexample :
    fsWithSubdir.isFile ["src", "sub"] = false ∧
    fsWithSubdir.isDir ["src", "sub"] = true ∧
    (runEntries moveSubRun).map OpFileInfo.fromPath = [["src", "sub"]] ∧
    (runEntries moveSubRun).map OpFileInfo.toPath = [["dst", "2023-05-05", "sub"]] ∧
    runErrors moveSubRun = [] ∧
    (runFS moveSubRun).isDir ["dst", "2023-05-05", "sub"] = true ∧
    (runFS moveSubRun).isDir ["src", "sub"] = false := by
  refine ⟨rfl, rfl, ?_, ?_, rfl, ?_, ?_⟩ <;> rfl

/-- C1 (amended): the listing is non-recursive but not files-only.  For
`copy()` every manifest entry does come from a regular file of the
source directory (a subdirectory makes `shutil.copy` raise
`IsADirectoryError`, recorded as a per-file error without an entry);
for `move()` a subdirectory is relocated with a manifest entry, as the
concrete run shows. -/
theorem C1_amended_listing_not_files_only :
    (∀ (eng : FileManagementLogic) (fs : FS) (now : DateTime)
        (inj : String → Option String) (eng2 : FileManagementLogic) (fs2 : FS)
        (entries : List OpFileInfo) (errors : List String),
      (∀ s, eng.target_folder_path ≠ eng.destination_folder_path ++ [s]) →
      eng.copy_files_to_destination_folder fs now inj = .ok (eng2, fs2, entries, errors) →
      ∀ e ∈ entries, fs.isFile (eng.target_folder_path ++ [e.file]) = true) ∧
    ((runEntries moveSubRun).map OpFileInfo.toPath = [["dst", "2023-05-05", "sub"]] ∧
      (runFS moveSubRun).isDir ["dst", "2023-05-05", "sub"] = true) := by
  constructor
  · intro eng fs now inj eng2 fs2 entries errors hdisj h e he
    obtain ⟨hff, hfrom⟩ := copy_files_srcfile hdisj h e he
    obtain ⟨hinv, hframe, -, -⟩ := copy_files_run h
    have hnb : ¬ ∃ s m, eng.target_folder_path ++ [e.file]
        = eng.destination_folder_path ++ [s, m] := by
      rintro ⟨s, m, hc⟩
      exact src_child_ne_bucket_file hdisj hc
    have hfr := hframe (eng.target_folder_path ++ [e.file]) hnb
    simp only [FS.isFile] at hff ⊢
    rw [← hfr, ← hfrom]
    exact hff
  · exact ⟨rfl, rfl⟩

/-- Witness for C1 (amended): in the concrete two-file copy run the
`doc.txt` entry originates from a regular file of the source. -/
theorem C1_amended_witness :
    fsTwoFiles.isFile ["src", "doc.txt"] = true :=
  C1_amended_listing_not_files_only.1 engSrcDst fsTwoFiles exT0 injNone
    (runEngine c7run) (runFS c7run) (runEntries c7run) (runErrors c7run)
    (fun s hc => by simp [engSrcDst] at hc) rfl
    ⟨"doc.txt", ["src", "doc.txt"], ["dst", "2024-03-10", "doc.txt"], "2024-03-10",
      "File modification time"⟩ (by decide)

/-- C6 (counterexample): `copy()` can abort fatally even though the
source directory exists and is listable: bucket pre-creation runs
outside any per-file handler, so a destination root blocked by a
regular file surfaces `NotADirectoryError` for the whole call. -/
theorem C6_counterexample :
    fsBlockedDest.isDir ["src"] = true ∧
    (listChildren fsBlockedDest ["src"]).length = 1 ∧
    FileManagementLogic.copy engBlockedDest fsBlockedDest exT0 injNone
      = .error "NotADirectoryError: os.makedirs" := ⟨rfl, rfl, rfl⟩

/-- C6 (amended): for the batch executors
`move_files_to_destination_folder` and
`copy_files_to_destination_folder` the claim holds: they abort (for any
oracle) exactly when the source directory is unavailable, and on
success every listed child is accounted for either by a manifest entry
or by a recorded per-file error, so individual failures never stop the
batch.  The public `copy()`/`move()` wrappers additionally abort when
bucket pre-creation fails, as the counterexample shows. -/
theorem C6_amended_error_containment :
    (∀ (eng : FileManagementLogic) (fs : FS) (now : DateTime)
        (inj : String → Option String),
      (∃ e, eng.move_files_to_destination_folder fs now inj = .error e) ↔
        fs.isDir eng.target_folder_path = false) ∧
    (∀ (eng : FileManagementLogic) (fs : FS) (now : DateTime)
        (inj : String → Option String),
      (∃ e, eng.copy_files_to_destination_folder fs now inj = .error e) ↔
        fs.isDir eng.target_folder_path = false) ∧
    (∀ (eng : FileManagementLogic) (fs : FS) (now : DateTime)
        (inj : String → Option String) (eng2 : FileManagementLogic) (fs2 : FS)
        (entries : List OpFileInfo) (errors : List String),
      eng.move_files_to_destination_folder fs now inj = .ok (eng2, fs2, entries, errors) →
      entries.length + errors.length = (listChildren fs eng.target_folder_path).length) ∧
    (∀ (eng : FileManagementLogic) (fs : FS) (now : DateTime)
        (inj : String → Option String) (eng2 : FileManagementLogic) (fs2 : FS)
        (entries : List OpFileInfo) (errors : List String),
      eng.copy_files_to_destination_folder fs now inj = .ok (eng2, fs2, entries, errors) →
      entries.length + errors.length = (listChildren fs eng.target_folder_path).length) :=
  ⟨move_files_error_iff, copy_files_error_iff,
   fun _ _ _ _ _ _ _ _ h => (move_files_run_engine h).2.2,
   fun _ _ _ _ _ _ _ _ h => copy_files_run_counts h⟩

/-- Witness for C6 (amended): with a permission failure injected on
`doc.txt`, the copy batch still succeeds and both listed children are
accounted for by the entry and the recorded error. -/
theorem C6_amended_witness :
    (runEntries c6run).length + (runErrors c6run).length
      = (listChildren fsTwoFiles ["src"]).length :=
  C6_amended_error_containment.2.2.2 engSrcDst fsTwoFiles exT0 injFailDoc
    (runEngine c6run) (runFS c6run) (runEntries c6run) (runErrors c6run) rfl

/-- C2: for a recognized image file with decodable metadata, date
resolution probes the tags 36867, 306, 50971, 36868 in the fixed
priority order; the first present non-empty value is parsed exactly as
the claim describes (colons converted, `%Y-%m-%d %H:%M:%S`, then retry
against `%Y-%m-%d` and `%Y/%m/%d`), the first successful parse wins,
and only if every tag fails does resolution fall back to the
modification time. -/
theorem C2_exif_probe (eng : FileManagementLogic) (fs : FS) (file_name : String)
    (fd : FileData) (em : List (Nat × String))
    (hfile : fs.getFile (eng.target_folder_path ++ [file_name]) = some fd)
    (hexif : fd.exif = some em)
    (himg : image_extensions.contains
      (strToLower (splitext (baseNameOf (eng.target_folder_path ++ [file_name]))).2) = true) :
    FileManagementLogic._get_exif_date fs (eng.target_folder_path ++ [file_name])
        = claimC2_resolve em ∧
    (claimC2_resolve em = none →
      eng.get_file_date_info fs file_name
        = .ok ⟨strftime fd.mtime eng.format_date, "File modification time", fd.mtime,
            strftime fd.mtime "%Y-%m-%d %H:%M:%S"⟩) := by
  have hmain : FileManagementLogic._get_exif_date fs (eng.target_folder_path ++ [file_name])
      = claimC2_resolve em := by
    simp only [FileManagementLogic._get_exif_date]
    rw [himg]
    simp only [Bool.not_true]
    rw [if_neg (by simp)]
    rw [hfile]
    try simp only []
    rw [hexif]
    try simp only []
    exact probe_date_fields_eq_claim date_fields em
  refine ⟨hmain, ?_⟩
  intro hnone
  have hstat : os_stat_mtime fs (eng.target_folder_path ++ [file_name]) = .ok fd.mtime := by
    unfold os_stat_mtime
    rw [hfile]
  simp only [FileManagementLogic.get_file_date_info]
  rw [hstat]
  try simp only []
  rw [hmain, hnone]

/-- Witness for C2 at a `.jpg` carrying only tag 36867 with value
`2023-01-15`: the probe follows the claim pipeline and the retry format
`%Y-%m-%d` succeeds. -/
theorem C2_witness :
    FileManagementLogic._get_exif_date fsTwoFiles ["src", "photo.jpg"]
        = claimC2_resolve [(36867, "2023-01-15")] ∧
    claimC2_resolve [(36867, "2023-01-15")] = some ⟨2023, 1, 15, 0, 0, 0⟩ :=
  ⟨(C2_exif_probe engSrcDst fsTwoFiles "photo.jpg" exJpgData [(36867, "2023-01-15")]
      rfl rfl (by decide)).1, by decide⟩

/-- C3: after a `copy()` batch that records at least one manifest entry,
`undo_last_action` returns `true`, removes every copied file recorded in
the manifest from its bucket, leaves no bucket directory both present
and completely empty, and leaves the source directory contents exactly
as before the copy.  (`hdisj` rules out the source being itself a
date-bucket of the destination root, in which case the undo would sweep
it.) -/
theorem C3_copy_then_undo (eng : FileManagementLogic) (fs0 : FS) (now : DateTime)
    (inj : String → Option String) (eng1 : FileManagementLogic) (fs1 : FS)
    (entries : List OpFileInfo) (errors : List String) (b : Bool)
    (eng2 : FileManagementLogic) (fs2 : FS)
    (hdisj : ∀ s, eng.target_folder_path ≠ eng.destination_folder_path ++ [s])
    (hcopy : eng.copy fs0 now inj = .ok (eng1, fs1, entries, errors))
    (hne : entries ≠ [])
    (hundo : eng1.undo_last_action fs1 (fun _ => none) = (b, eng2, fs2)) :
    b = true ∧ eng2.last_operation = none ∧
    (∀ e ∈ entries, fs2.getFile e.toPath = none) ∧
    (∀ e ∈ entries, fs2.isDir e.toPath.dropLast = true →
      (listChildren fs2 e.toPath.dropLast).isEmpty = false) ∧
    (∀ n, fs2.getFile (eng.target_folder_path ++ [n])
        = fs0.getFile (eng.target_folder_path ++ [n])) := by
  unfold FileManagementLogic.copy at hcopy
  cases hcf : eng.create_folder_with_date fs0 now with
  | error e => rw [hcf] at hcopy; exact absurd hcopy (by simp)
  | ok fsA =>
    rw [hcf] at hcopy
    try simp only [] at hcopy
    obtain ⟨hfilesA, -, -⟩ := create_folder_with_date_ok hcf
    obtain ⟨hinv, hframe, heng1, -⟩ := copy_files_run hcopy
    have hni : entries.isEmpty = false := by
      cases entries with
      | nil => exact absurd rfl hne
      | cons a l => rfl
    have heq : eng1 = eng._track_operation "copy" entries now := by
      rw [heng1, hni]
      rw [if_neg (by simp)]
    subst heq
    have hdispatch : (eng._track_operation "copy" entries now).undo_last_action fs1
          (fun _ => none)
        = (eng._track_operation "copy" entries now)._undo_copy_operation fs1
            (fun _ => none) entries := by
      unfold FileManagementLogic.undo_last_action
      rw [show (eng._track_operation "copy" entries now).last_operation
          = some ⟨"copy", entries, now⟩ from rfl]
      try simp only []
      rw [if_neg (by decide)]
      simp
    obtain ⟨fs2x, hund, hnoneE, hframe2, hbuckets⟩ :=
      @undo_copy_operation_spec (eng._track_operation "copy" entries now) fs1 entries
        hinv.dests_exist hinv.dests_nodup hinv.dests_shape
    have h3 := hundo.symm.trans (hdispatch.trans hund)
    simp only [Prod.mk.injEq] at h3
    obtain ⟨hb, heng2, hfs2⟩ := h3
    subst hfs2
    refine ⟨hb, by rw [heng2], hnoneE, hbuckets, ?_⟩
    intro n
    have hnb : ¬ ∃ s m, eng.target_folder_path ++ [n]
        = eng.destination_folder_path ++ [s, m] := by
      rintro ⟨s, m, hc⟩
      exact src_child_ne_bucket_file hdisj hc
    have hnotin : eng.target_folder_path ++ [n] ∉ entries.map OpFileInfo.toPath := by
      intro hq
      obtain ⟨e, he, htp⟩ := List.mem_map.mp hq
      obtain ⟨s, m, hsm⟩ := hinv.dests_shape e he
      exact hnb ⟨s, m, by rw [← htp, hsm]⟩
    rw [hframe2 _ hnotin, hframe _ hnb]
    show alookup fsA.files _ = alookup fs0.files _
    rw [hfilesA]

/-- Witness for C3: the concrete two-file copy followed by undo
succeeds and clears the last operation. -/
theorem C3_witness :
    (FileManagementLogic.undo_last_action (runEngine c3run) (runFS c3run)
        (fun _ => none)).1 = true ∧
    ((FileManagementLogic.undo_last_action (runEngine c3run) (runFS c3run)
        (fun _ => none)).2.1).last_operation = none := by
  have h := C3_copy_then_undo engSrcDst fsTwoFiles exT0 injNone
    (runEngine c3run) (runFS c3run) (runEntries c3run) (runErrors c3run)
    (FileManagementLogic.undo_last_action (runEngine c3run) (runFS c3run) (fun _ => none)).1
    (FileManagementLogic.undo_last_action (runEngine c3run) (runFS c3run) (fun _ => none)).2.1
    (FileManagementLogic.undo_last_action (runEngine c3run) (runFS c3run) (fun _ => none)).2.2
    (fun s hc => by simp [engSrcDst] at hc) rfl (by decide) rfl
  exact ⟨h.1, h.2.1⟩

/-- C4: when the initial candidate `destinationRoot/bucket/fileName`
already exists the planner returns the first candidate
`stem_k.ext` (k = 1, 2, …) that is unused — every earlier candidate,
including the initial one, is occupied; consequently the destination
paths recorded in a successful batch are pairwise distinct, for `copy`
unconditionally and for `move` whenever the source directory is not the
destination root or one of its buckets. -/
theorem C4_collision_unique_dests :
    (∀ (fs : FS) (fp : FPath) (nm : String), ∃ k,
      resolve_collision fs fp nm = dup_candidate fp nm k ∧
      os_path_exists fs (dup_candidate fp nm k) = false ∧
      ∀ j, j < k → os_path_exists fs (dup_candidate fp nm j) = true) ∧
    (∀ (eng : FileManagementLogic) (fs : FS) (now : DateTime)
        (inj : String → Option String) (eng2 : FileManagementLogic) (fs2 : FS)
        (entries : List OpFileInfo) (errors : List String),
      eng.copy_files_to_destination_folder fs now inj = .ok (eng2, fs2, entries, errors) →
      (entries.map OpFileInfo.toPath).Nodup) ∧
    (∀ (eng : FileManagementLogic) (fs : FS) (now : DateTime)
        (inj : String → Option String) (eng2 : FileManagementLogic) (fs2 : FS)
        (entries : List OpFileInfo) (errors : List String),
      (∀ s, eng.target_folder_path ≠ eng.destination_folder_path ++ [s]) →
      eng.target_folder_path ≠ eng.destination_folder_path →
      eng.move_files_to_destination_folder fs now inj = .ok (eng2, fs2, entries, errors) →
      (entries.map OpFileInfo.toPath).Nodup) :=
  ⟨resolve_collision_spec,
   fun _ _ _ _ _ _ _ _ h => (copy_files_run h).1.dests_nodup,
   fun _ _ _ _ _ _ _ _ hdisj hsrcne h => move_files_run hdisj hsrcne h⟩

/-- Witness for C4: the collision characterization at a fresh name, and
the pairwise-distinct destinations of the concrete copy run. -/
theorem C4_witness :
    (∃ k, resolve_collision fsTwoFiles ["dst"] "new.txt"
        = dup_candidate ["dst"] "new.txt" k ∧
      os_path_exists fsTwoFiles (dup_candidate ["dst"] "new.txt" k) = false ∧
      ∀ j, j < k → os_path_exists fsTwoFiles (dup_candidate ["dst"] "new.txt" j) = true) ∧
    ((runEntries c7run).map OpFileInfo.toPath).Nodup :=
  ⟨C4_collision_unique_dests.1 fsTwoFiles ["dst"] "new.txt",
   C4_collision_unique_dests.2.1 engSrcDst fsTwoFiles exT0 injNone
     (runEngine c7run) (runFS c7run) (runEntries c7run) (runErrors c7run) rfl⟩
